import Mathlib

/-!
Verification of the Storm.App application-lifecycle coordinator
(src/Storm.App.js).

The JavaScript source is shallowly embedded as a state machine.  Each
`App` instance becomes an `AppState`; the module-level mutable state
(`_apps`, `_isDocReady`, `_lockBarrier`) becomes a `SysState`.  Callbacks
(setup, start, end) are modelled as functions from the configuration to
an updated configuration together with an optional raised error; an error
models a JavaScript exception, and mutations made before the raise
persist, exactly as they do in the source.  Every observable side effect
(entering the body of `_initialize` or `_unload`, emitting a lifecycle
event, invoking a registered callback) is recorded in an event trace so
that "runs at most once", "fires in this order" and similar properties
can be stated as facts about traces.

External stimuli (document ready, window beforeunload, the public API
calls) form the operation language `Op`; `applyOp` gives each operation
the semantics of the corresponding source path, including the `_.once`
wrappers installed by the `App` constructor and the error-propagation
behaviour of `_.each` style iteration (an exception aborts the remaining
iterations but keeps the mutations already made).
-/

namespace StormApp

/-- A configuration object: string keys mapped to values, as in
`this.config` of the source.  Values are modelled as integers. -/
abbrev Config := List (String × Int)

/-- An error value raised by a callback (a JavaScript exception payload). -/
abbrev Err := Nat

/-- A callback receives the configuration and returns the (possibly
mutated) configuration, plus `some e` when it raises error `e`.
Mutations made before the raise persist. -/
abbrev Callback := Config → Config × Option Err

/-- Names of the four lifecycle events emitted by `_initialize`. -/
inductive LName where
  | setupBefore
  | setupAfter
  | startBefore
  | startAfter
  deriving DecidableEq

/-- Trace events recording every observable side effect of the system.
The `Nat` argument is always the index of the app (its position in the
module-level `_apps` array). -/
inductive Ev where
  /-- The body of `_initialize` (inside the once-wrapper) started. -/
  | initBody (i : Nat)
  /-- The body of `_unload` passed its `_hasInitialized` guard. -/
  | unloadBody (i : Nat)
  /-- A lifecycle event was emitted via `this.trigger(name, this.config)`. -/
  | trig (i : Nat) (name : LName) (cfg : Config)
  /-- The setup callback number `k` was invoked with configuration `cfg`. -/
  | setupCall (i k : Nat) (cfg : Config)
  /-- The start callback was invoked with configuration `cfg`. -/
  | startCallEv (i : Nat) (cfg : Config)
  /-- The end callback was invoked with `(app, cfg)`. -/
  | endCallEv (i : Nat) (cfg : Config)
  /-- The payload-free `end` event was emitted via `this.trigger` . -/
  | endTrig (i : Nat)
  deriving DecidableEq

/-- The app index an event belongs to. -/
def evIdx : Ev → Nat
  | .initBody i => i
  | .unloadBody i => i
  | .trig i _ _ => i
  | .setupCall i _ _ => i
  | .startCallEv i _ => i
  | .endCallEv i _ => i
  | .endTrig i => i

/-- Per-app state.  Fields mirror the instance fields set up by the
`App` constructor in the source.  `initOnce` and `unloadOnce` are the
internal flags of the two `_.once` wrappers installed by
`this._initialize = _.once(...)` and `this._unload = _.once(...)`;
`subscribedReady` records whether `_bindAutoStart` registered a handler
on the `document:ready` observable. -/
structure AppState where
  config : Config
  setupCalls : List Callback
  startCall : Option Callback
  endCall : Option Callback
  hasInitialized : Bool
  isIgnited : Bool
  initOnce : Bool
  unloadOnce : Bool
  autoStart : Bool
  autoEnd : Bool
  subscribedReady : Bool

/-- The default app value used for out-of-range lookups. -/
def defaultApp : AppState :=
  { config := [], setupCalls := [], startCall := none, endCall := none,
    hasInitialized := false, isIgnited := false, initOnce := false,
    unloadOnce := false, autoStart := false, autoEnd := false,
    subscribedReady := false }

/-- The default start callback created by `_initialize` when no start
call was registered (`this.startCall = this.startCall || function(){}`). -/
def noopCall : Callback := fun c => (c, none)

/-- The `_callSetup` loop: invoke the queued setup callbacks in registration
order, each receiving the current configuration.  The index `k` numbers
the invocations.  If a callback raises, iteration stops and the error
propagates (so the queue-clearing statement after the loop is skipped
by the caller). -/
def drainSetups (i : Nat) : Nat → List Callback → Config → List Ev →
    Config × List Ev × Option Err
  | _, [], c, tr => (c, tr, none)
  | k, f :: fs, c, tr =>
    match f c with
    | (c2, some e) => (c2, tr ++ [Ev.setupCall i k c], some e)
    | (c2, none) => drainSetups i (k + 1) fs c2 (tr ++ [Ev.setupCall i k c])

/-- The body of `_initialize` (the function wrapped by `_.once`):
install a default start call if none exists, set `_hasInitialized`,
emit `setup:before`, drain the setup queue and clear it, emit
`setup:after` and `start:before`, invoke the start call and discard the
reference, emit `start:after`.  A raise inside a setup callback or the
start callback aborts the remaining steps and propagates. -/
def initializeBody (i : Nat) (a : AppState) (tr : List Ev) :
    AppState × List Ev × Option Err :=
  let sc := a.startCall.getD noopCall
  let a1 : AppState := { a with startCall := some sc, hasInitialized := true }
  let tr1 := tr ++ [Ev.initBody i, Ev.trig i LName.setupBefore a1.config]
  match drainSetups i 0 a1.setupCalls a1.config tr1 with
  | (c1, tr2, some e) => ({ a1 with config := c1 }, tr2, some e)
  | (c1, tr2, none) =>
    let a2 : AppState := { a1 with config := c1, setupCalls := [] }
    let tr3 := tr2 ++ [Ev.trig i LName.setupAfter c1, Ev.trig i LName.startBefore c1]
    match sc c1 with
    | (c2, some e) => ({ a2 with config := c2 }, tr3 ++ [Ev.startCallEv i c1], some e)
    | (c2, none) =>
      ({ a2 with config := c2, startCall := none },
        (tr3 ++ [Ev.startCallEv i c1]) ++ [Ev.trig i LName.startAfter c2], none)

/-- The method `this._initialize` after the constructor wraps it with the underscore once helper:
the underscore once-wrapper flips its flag before calling the body, so
a raise inside the body still consumes the single shot. -/
def initializeOnce (i : Nat) (a : AppState) (tr : List Ev) :
    AppState × List Ev × Option Err :=
  if a.initOnce then (a, tr, none)
  else initializeBody i { a with initOnce := true } tr

/-- The body of `_unload` (the function wrapped by `_.once`): a no-op
when the app never initialized; otherwise invoke the end callback (if
registered) with `(app, config)` and then emit the `end` event.  A raise
inside the end callback skips the `end` event and propagates. -/
def unloadBody (i : Nat) (a : AppState) (tr : List Ev) :
    AppState × List Ev × Option Err :=
  if a.hasInitialized = false then (a, tr, none)
  else
    match a.endCall with
    | some f =>
      match f a.config with
      | (c2, some e) =>
        ({ a with config := c2 },
          (tr ++ [Ev.unloadBody i]) ++ [Ev.endCallEv i a.config], some e)
      | (c2, none) =>
        ({ a with config := c2 },
          ((tr ++ [Ev.unloadBody i]) ++ [Ev.endCallEv i a.config]) ++ [Ev.endTrig i], none)
    | none => (a, (tr ++ [Ev.unloadBody i]) ++ [Ev.endTrig i], none)

/-- The method `this._unload` after the constructor wraps it with the underscore once helper. -/
def _unload (i : Nat) (a : AppState) (tr : List Ev) :
    AppState × List Ev × Option Err :=
  if a.unloadOnce then (a, tr, none)
  else unloadBody i { a with unloadOnce := true } tr

/-- The gating check `_check`.  Here `lb` is the module-level `_lockBarrier`
and `rdy` the module-level `_isDocReady` at the time of the check. -/
def _check (lb : Int) (rdy : Bool) (i : Nat) (a : AppState) (tr : List Ev) :
    AppState × List Ev × Option Err :=
  if lb > 0 then (a, tr, none)
  else if a.isIgnited || rdy then initializeOnce i a tr
  else (a, tr, none)

/-- The method `smother(opts)`: no-op unless the app initialized; otherwise run the
one-shot `_unload` unless `opts.isSilent` is set. -/
def smother (i : Nat) (isSilent : Bool) (a : AppState) (tr : List Ev) :
    AppState × List Ev × Option Err :=
  if a.hasInitialized = false then (a, tr, none)
  else if isSilent = false then _unload i a tr
  else (a, tr, none)

/-- Sequential iteration over the registered apps (the `_.each` calls in
`_runChecks` and in observable dispatch).  `k` is the index of the first
app in the list.  An error raised by one app aborts the iteration for
the remaining apps; mutations made before the raise persist. -/
def foldApps (f : Nat → AppState → List Ev → AppState × List Ev × Option Err) :
    List AppState → Nat → List Ev → List AppState × List Ev × Option Err
  | [], _, tr => ([], tr, none)
  | a :: rest, k, tr =>
    match f k a tr with
    | (a2, tr2, some e) => (a2 :: rest, tr2, some e)
    | (a2, tr2, none) =>
      match foldApps f rest (k + 1) tr2 with
      | (rest2, tr3, e2) => (a2 :: rest2, tr3, e2)

/-- The broadcast `_runChecks`: run `_check` on every registered app. -/
def _runChecks (lb : Int) (rdy : Bool) (l : List AppState) (tr : List Ev) :
    List AppState × List Ev × Option Err :=
  foldApps (_check lb rdy) l 0 tr

/-- Dispatch of the `document:ready` observable event: only apps that
subscribed in `_bindAutoStart` run their bound `_check`.  The document
flag is already true when the handlers run. -/
def readyDispatch (lb : Int) (j : Nat) (a : AppState) (tr : List Ev) :
    AppState × List Ev × Option Err :=
  if a.subscribedReady then _check lb true j a tr else (a, tr, none)

/-- Dispatch of the `window:unload` observable event: only apps whose
`autoEnd` subscribed them in `_bindAutoEnd` run their bound `_unload`. -/
def unloadDispatch (j : Nat) (a : AppState) (tr : List Ev) :
    AppState × List Ev × Option Err :=
  if a.autoEnd then _unload j a tr else (a, tr, none)

/-- The app state built by the `App` constructor before
`_bindAutoStart` runs.  `subscribedReady` is set when `_bindAutoStart`
will register on the `document:ready` observable (auto-start app, doc
not ready yet). -/
def freshApp (as ae rdy : Bool) : AppState :=
  { config := [], setupCalls := [], startCall := none, endCall := none,
    hasInitialized := false, isIgnited := false, initOnce := false,
    unloadOnce := false, autoStart := as, autoEnd := ae,
    subscribedReady := as && !rdy }

/-- The module-level state: the `_apps` registry, `_isDocReady`,
`_lockBarrier`, and the accumulated event trace. -/
structure SysState where
  apps : List AppState
  isDocReady : Bool
  lockBarrier : Int
  trace : List Ev

/-- The state at module load: no apps, document not ready, no locks. -/
def initSys : SysState :=
  { apps := [], isDocReady := false, lockBarrier := 0, trace := [] }

/-- Look up the app at index `i` (out of range gives `defaultApp`). -/
def appAtL : List AppState → Nat → AppState
  | [], _ => defaultApp
  | a :: _, 0 => a
  | _ :: l, n + 1 => appAtL l n

/-- Replace the app at index `i` (the in-place mutation of the array
element in the source). -/
def setAt : List AppState → Nat → AppState → List AppState
  | [], _, _ => []
  | _ :: l, 0, b => b :: l
  | a :: l, n + 1, b => a :: setAt l n b

/-- The app at index `i` of the system state. -/
def appAt (s : SysState) (i : Nat) : AppState := appAtL s.apps i

/-- The external stimuli: environment signals and public API calls.
Indices refer to positions in the `_apps` registry. -/
inductive Op where
  /-- The event `document.ready` fires: set `_isDocReady` and trigger
  `document:ready`, dispatching to the subscribed apps in order. -/
  | docReady
  /-- The event `window.beforeunload` fires: trigger `window:unload`, calling
  `_unload` on every app whose `autoEnd` subscribed it. -/
  | windowUnload
  /-- Constructing `new App()` with the given `autoStart` / `autoEnd` flags:
  push onto `_apps`, then `_bindAutoStart` / `_bindAutoEnd`. -/
  | newApp (autoStart autoEnd : Bool)
  /-- Calling `app.ignite()` on app `i`. -/
  | ignite (i : Nat)
  /-- Calling `app.smother(opts)` on app `i` with `opts.isSilent` as given. -/
  | smother (i : Nat) (isSilent : Bool)
  /-- Calling `app.setup(f)` on app `i`. -/
  | setup (i : Nat) (f : Callback)
  /-- Calling `app.start(f)` on app `i`. -/
  | start (i : Nat) (f : Callback)
  /-- Calling `app.end(f)` on app `i`. -/
  | endReg (i : Nat) (f : Callback)
  /-- Calling `App.lock()`. -/
  | lock
  /-- Calling `App.unlock()`. -/
  | unlock

/-- Apply an action to the app at index `i`, leaving the state unchanged
when no such app exists. -/
def appOp (s : SysState) (i : Nat)
    (act : AppState → List Ev → AppState × List Ev × Option Err) :
    SysState × Option Err :=
  if i < s.apps.length then
    match act (appAtL s.apps i) s.trace with
    | (a2, tr2, e) => ({ s with apps := setAt s.apps i a2, trace := tr2 }, e)
  else (s, none)

/-- One step of the system.  The second component is the error (if any)
that propagated to the caller of the triggering event. -/
def applyOp (s : SysState) : Op → SysState × Option Err
  | .docReady =>
    match foldApps (readyDispatch s.lockBarrier) s.apps 0 s.trace with
    | (l2, tr2, e) => ({ s with isDocReady := true, apps := l2, trace := tr2 }, e)
  | .windowUnload =>
    match foldApps unloadDispatch s.apps 0 s.trace with
    | (l2, tr2, e) => ({ s with apps := l2, trace := tr2 }, e)
  | .newApp as ae =>
    if as && s.isDocReady then
      match _check s.lockBarrier s.isDocReady s.apps.length
          (freshApp as ae s.isDocReady) s.trace with
      | (a2, tr2, e) => ({ s with apps := s.apps ++ [a2], trace := tr2 }, e)
    else ({ s with apps := s.apps ++ [freshApp as ae s.isDocReady] }, none)
  | .ignite i =>
    appOp s i (fun a tr =>
      _check s.lockBarrier s.isDocReady i { a with isIgnited := true } tr)
  | .smother i sil => appOp s i (fun a tr => smother i sil a tr)
  | .setup i f =>
    appOp s i (fun a tr => ({ a with setupCalls := a.setupCalls ++ [f] }, tr, none))
  | .start i f => appOp s i (fun a tr => ({ a with startCall := some f }, tr, none))
  | .endReg i f => appOp s i (fun a tr => ({ a with endCall := some f }, tr, none))
  | .lock => ({ s with lockBarrier := s.lockBarrier + 1 }, none)
  | .unlock =>
    match _runChecks (s.lockBarrier - 1) s.isDocReady s.apps s.trace with
    | (l2, tr2, e) =>
      ({ s with lockBarrier := s.lockBarrier - 1, apps := l2, trace := tr2 }, e)

/-- Run a sequence of external stimuli.  Each stimulus is independent:
an error propagating out of one does not prevent later stimuli. -/
def run (s : SysState) : List Op → SysState
  | [] => s
  | op :: ops => run (applyOp s op).1 ops

/-! ## Counting events in traces -/
/-- Number of events satisfying `p` in a trace. -/
def cnt (p : Ev → Bool) (tr : List Ev) : Nat := (tr.filter p).length

/-- Recognizes the marker for the body of `_initialize` of app `i`. -/
def pInit (i : Nat) : Ev → Bool
  | .initBody j => j == i
  | _ => false

/-- Recognizes the marker for the guarded body of `_unload` of app `i`. -/
def pUnload (i : Nat) : Ev → Bool
  | .unloadBody j => j == i
  | _ => false

/-- Recognizes an invocation of the start callback of app `i`. -/
def pStart (i : Nat) : Ev → Bool
  | .startCallEv j _ => j == i
  | _ => false

/-- Recognizes an invocation of the end callback of app `i`. -/
def pEndCall (i : Nat) : Ev → Bool
  | .endCallEv j _ => j == i
  | _ => false

/-- Recognizes an emission of the `end` event of app `i`. -/
def pEndTrig (i : Nat) : Ev → Bool
  | .endTrig j => j == i
  | _ => false

/-- A trace fragment containing no event of app `i` that any of the
counted predicates would match. -/
def NoI (i : Nat) (d : List Ev) : Prop :=
  cnt (pInit i) d = 0 ∧ cnt (pUnload i) d = 0 ∧ cnt (pStart i) d = 0 ∧
  cnt (pEndCall i) d = 0 ∧ cnt (pEndTrig i) d = 0

/-! ## The per-step delta specification

`ActOKd i a a2 d` relates the state of app `i` before (`a`) and after
(`a2`) a step whose trace delta is `d`.  It captures exactly the facts
needed for the once-guard invariants: the body of `_initialize` runs in
the delta exactly when the once-flag flips, the body of `_unload` runs
exactly when its once-flag flips on an already-initialized app, end
callback invocations and `end` emissions are bounded by unload-body
runs, start callback invocations by initialize-body runs, and the three
guard flags are monotone. -/
structure ActOKd (i : Nat) (a a2 : AppState) (d : List Ev) : Prop where
  hInit : cnt (pInit i) d = (if !a.initOnce && a2.initOnce then 1 else 0)
  hUnl : cnt (pUnload i) d =
    (if !a.unloadOnce && a2.unloadOnce && a.hasInitialized then 1 else 0)
  hEndC : cnt (pEndCall i) d ≤ cnt (pUnload i) d
  hEndT : cnt (pEndTrig i) d ≤ cnt (pUnload i) d
  hStart : cnt (pStart i) d ≤ cnt (pInit i) d
  mInit : a.initOnce = true → a2.initOnce = true
  mHas : a.hasInitialized = true → a2.hasInitialized = true
  mUnl : a.unloadOnce = true → a2.unloadOnce = true
  mImp : (a.hasInitialized = true → a.initOnce = true) →
    a2.hasInitialized = true → a2.initOnce = true

/-- The action-level specification: result trace extends the input
trace by a delta of app-`i` events satisfying `ActOKd`. -/
def ActOK (i : Nat) (a : AppState) (tr : List Ev)
    (r : AppState × List Ev × Option Err) : Prop :=
  ∃ d, r.2.1 = tr ++ d ∧ (∀ e ∈ d, evIdx e = i) ∧ ActOKd i a r.1 d

/-! ## The reachable-state invariant -/
/-- The trace/flag invariant for app `i`: the initialize body has run
exactly as often as the once-flag says, the unload body at most as often
as its once-flag allows and never on a never-initialized app, end events
are bounded by unload-body runs, start invocations by initialize-body
runs, and `hasInitialized` implies a consumed initialize once-flag. -/
def Good (tr : List Ev) (i : Nat) (a : AppState) : Prop :=
  cnt (pInit i) tr = (if a.initOnce then 1 else 0) ∧
  cnt (pUnload i) tr ≤ (if a.unloadOnce then 1 else 0) ∧
  (a.hasInitialized = false → cnt (pUnload i) tr = 0) ∧
  cnt (pEndCall i) tr ≤ cnt (pUnload i) tr ∧
  cnt (pEndTrig i) tr ≤ cnt (pUnload i) tr ∧
  cnt (pStart i) tr ≤ cnt (pInit i) tr ∧
  (a.hasInitialized = true → a.initOnce = true)

/-- The system invariant: every index satisfies `Good`. -/
def Inv (s : SysState) : Prop := ∀ i, Good s.trace i (appAt s i)

/-! ## Pure-callback characterizations of the initialize transition -/
/-- A callback that never raises. -/
def PureCb (f : Callback) : Prop := ∀ c, (f c).2 = none

/-- The configuration after threading it through a list of callbacks in
order (the composite mutation of a drained setup queue). -/
def applyAll : List Callback → Config → Config
  | [], c => c
  | f :: fs, c => applyAll fs (f c).1

/-- The invocation events produced by draining a queue of callbacks in
FIFO order starting at invocation number `k`, with the configuration
threaded through. -/
def setupTrace (i : Nat) : Nat → List Callback → Config → List Ev
  | _, [], _ => []
  | k, f :: fs, c => Ev.setupCall i k c :: setupTrace i (k + 1) fs (f c).1

/-! ## An auto-start-false app without ignite and without unlock -/
/-- The state of an `autoStart = false` app that has not been ignited:
it never subscribed to `document:ready`, has not been ignited, and its
initialize once-flag is untouched. -/
def Q5 (a : AppState) : Prop :=
  a.autoStart = false ∧ a.isIgnited = false ∧ a.initOnce = false ∧
  a.hasInitialized = false ∧ a.subscribedReady = false

/-! ## Concrete data for witnesses -/
def keyA : String := "a"

def keyB : String := "b"

def keyC : String := "c"

/-- A setup callback that adds a key (pure). -/
def setupF1 : Callback := fun c => ((keyA, 1) :: c, none)

/-- A second pure setup callback. -/
def setupF2 : Callback := fun c => ((keyB, 2) :: c, none)

/-- A pure start callback. -/
def startF : Callback := fun c => ((keyC, 3) :: c, none)

/-- A pure end callback. -/
def endFc : Callback := fun c => (c, none)

/-- A setup callback that raises error `7`. -/
def badSetup : Callback := fun c => (c, some 7)

/-- A start callback that raises error `9`. -/
def badStart : Callback := fun c => (c, some 9)

/-- A freshly constructed app with registered callbacks, not yet
initialized. -/
def wApp : AppState :=
  { config := [], setupCalls := [setupF1, setupF2], startCall := some startF,
    endCall := some endFc, hasInitialized := false, isIgnited := false,
    initOnce := false, unloadOnce := false, autoStart := true, autoEnd := true,
    subscribedReady := true }

/-- An app whose initialization has completed. -/
def wInitApp : AppState :=
  { config := [], setupCalls := [], startCall := none,
    endCall := some endFc, hasInitialized := true, isIgnited := true,
    initOnce := true, unloadOnce := false, autoStart := true, autoEnd := true,
    subscribedReady := false }

/-- An app whose first setup callback is pure and whose second raises. -/
def wAppBadSetup : AppState :=
  { wApp with setupCalls := [setupF1, badSetup] }

/-- An app with a pure setup queue and a raising start callback. -/
def wAppBadStart : AppState :=
  { wApp with setupCalls := [setupF1], startCall := some badStart }

/-- A system with one initialized app (index 0), the lock barrier held
once, and a second app registered while the barrier is up. -/
def s3 : SysState :=
  run initSys [Op.newApp true true, Op.docReady, Op.lock, Op.newApp true true]

/-- A system with a single `autoStart = false` app. -/
def s5 : SysState := run initSys [Op.newApp false true]

/-- A system with a single app that has initialized. -/
def s10 : SysState := run initSys [Op.newApp true true, Op.docReady]

@[simp] lemma cnt_nil (p : Ev → Bool) : cnt p [] = 0 := rfl

@[simp] lemma cnt_cons (p : Ev → Bool) (e : Ev) (tr : List Ev) :
    cnt p (e :: tr) = (if p e then 1 else 0) + cnt p tr := by
  by_cases h : p e <;> simp [cnt, List.filter, h, Nat.add_comm]

@[simp] lemma cnt_append (p : Ev → Bool) (t1 t2 : List Ev) :
    cnt p (t1 ++ t2) = cnt p t1 + cnt p t2 := by
  simp [cnt, List.filter_append]

lemma cnt_eq_zero (p : Ev → Bool) (tr : List Ev) (h : ∀ e ∈ tr, p e = false) :
    cnt p tr = 0 := by
  induction tr with
  | nil => rfl
  | cons e t ih =>
    have he := h e (by simp)
    simp [he, ih fun x hx => h x (by simp [hx])]

lemma pInit_idx (i : Nat) (e : Ev) (h : pInit i e = true) : evIdx e = i := by
  cases e <;> simp_all [pInit, evIdx]

lemma pUnload_idx (i : Nat) (e : Ev) (h : pUnload i e = true) : evIdx e = i := by
  cases e <;> simp_all [pUnload, evIdx]

lemma pStart_idx (i : Nat) (e : Ev) (h : pStart i e = true) : evIdx e = i := by
  cases e <;> simp_all [pStart, evIdx]

lemma pEndCall_idx (i : Nat) (e : Ev) (h : pEndCall i e = true) : evIdx e = i := by
  cases e <;> simp_all [pEndCall, evIdx]

lemma pEndTrig_idx (i : Nat) (e : Ev) (h : pEndTrig i e = true) : evIdx e = i := by
  cases e <;> simp_all [pEndTrig, evIdx]

lemma NoI_of_idx_ne (i : Nat) (d : List Ev) (h : ∀ e ∈ d, evIdx e ≠ i) :
    NoI i d := by
  refine ⟨?_, ?_, ?_, ?_, ?_⟩ <;>
    refine cnt_eq_zero _ _ fun e he => ?_
  · cases hpe : pInit i e
    · rfl
    · exact absurd (pInit_idx i e hpe) (h e he)
  · cases hpe : pUnload i e
    · rfl
    · exact absurd (pUnload_idx i e hpe) (h e he)
  · cases hpe : pStart i e
    · rfl
    · exact absurd (pStart_idx i e hpe) (h e he)
  · cases hpe : pEndCall i e
    · rfl
    · exact absurd (pEndCall_idx i e hpe) (h e he)
  · cases hpe : pEndTrig i e
    · rfl
    · exact absurd (pEndTrig_idx i e hpe) (h e he)

lemma NoI_nil (i : Nat) : NoI i [] := ⟨rfl, rfl, rfl, rfl, rfl⟩

lemma NoI_append (i : Nat) (d1 d2 : List Ev) (h1 : NoI i d1) (h2 : NoI i d2) :
    NoI i (d1 ++ d2) := by
  obtain ⟨a1, b1, c1, e1, f1⟩ := h1
  obtain ⟨a2, b2, c2, e2, f2⟩ := h2
  refine ⟨?_, ?_, ?_, ?_, ?_⟩ <;> simp [a1, b1, c1, e1, f1, a2, b2, c2, e2, f2]

/-- A delta with no events of app `i` relates any app state to itself. -/
lemma ActOKd_same (i : Nat) (a : AppState) (d : List Ev) (h : NoI i d) :
    ActOKd i a a d := by
  obtain ⟨h1, h2, h3, h4, h5⟩ := h
  exact ⟨by simp [h1], by simp [h2], by simp [h2, h4],
    by simp [h2, h5], by simp [h1, h3], id, id, id, fun h => h⟩

lemma ActOKd_nil (i : Nat) (a : AppState) : ActOKd i a a [] :=
  ActOKd_same i a [] (NoI_nil i)

/-- Prepending an `i`-free fragment preserves the delta specification. -/
lemma ActOKd_append_left (i : Nat) (a a2 : AppState) (d1 d2 : List Ev)
    (h1 : NoI i d1) (h2 : ActOKd i a a2 d2) : ActOKd i a a2 (d1 ++ d2) := by
  obtain ⟨x1, x2, x3, x4, x5⟩ := h1
  obtain ⟨y1, y2, y3, y4, y5, m1, m2, m3, m4⟩ := h2
  exact ⟨by simp [x1, y1], by simp [x2, y2], by simp [x2, x4, y3],
    by simp [x2, x5, y4], by simp [x1, x3, y5], m1, m2, m3, m4⟩

/-- Appending an `i`-free fragment preserves the delta specification. -/
lemma ActOKd_append_right (i : Nat) (a a2 : AppState) (d1 d2 : List Ev)
    (h1 : ActOKd i a a2 d1) (h2 : NoI i d2) : ActOKd i a a2 (d1 ++ d2) := by
  obtain ⟨y1, y2, y3, y4, y5, m1, m2, m3, m4⟩ := h1
  obtain ⟨x1, x2, x3, x4, x5⟩ := h2
  exact ⟨by simp [x1, y1], by simp [x2, y2], by simp [x2, x4, y3],
    by simp [x2, x5, y4], by simp [x1, x3, y5], m1, m2, m3, m4⟩

/-- Transporting the delta specification along an equality of the
guard-relevant fields of the pre-state. -/
lemma ActOKd_congr (i : Nat) (a b a2 : AppState) (d : List Ev)
    (h1 : a.initOnce = b.initOnce) (h2 : a.unloadOnce = b.unloadOnce)
    (h3 : a.hasInitialized = b.hasInitialized)
    (h : ActOKd i a a2 d) : ActOKd i b a2 d := by
  obtain ⟨y1, y2, y3, y4, y5, m1, m2, m3, m4⟩ := h
  exact ⟨by rw [y1, h1], by rw [y2, h2, h3], y3, y4, y5,
    fun hb => m1 (h1.trans hb), fun hb => m2 (h3.trans hb),
    fun hb => m3 (h2.trans hb),
    fun hb => m4 (fun hc => h1.trans (hb (h3.symm.trans hc)))⟩

/-- A nil-delta specification for an action that only changes fields
other than the three guard flags. -/
lemma ActOKd_nil_of_eq (i : Nat) (a a2 : AppState)
    (h1 : a2.initOnce = a.initOnce) (h2 : a2.unloadOnce = a.unloadOnce)
    (h3 : a2.hasInitialized = a.hasInitialized) : ActOKd i a a2 [] := by
  refine ⟨?_, ?_, le_refl _, le_refl _, le_refl _, ?_, ?_, ?_, ?_⟩
  · rw [h1]; cases a.initOnce <;> simp
  · rw [h2]; cases a.unloadOnce <;> simp
  · exact fun h => h1.trans h
  · exact fun h => h3.trans h
  · exact fun h => h2.trans h
  · intro himp hh
    exact h1.trans (himp (h3.symm.trans hh))

lemma NoI_setupCall (i j k : Nat) (c : Config) : NoI i [Ev.setupCall j k c] := by
  refine ⟨?_, ?_, ?_, ?_, ?_⟩ <;>
    simp [pInit, pUnload, pStart, pEndCall, pEndTrig]

lemma NoI_trig (i j : Nat) (n : LName) (c : Config) : NoI i [Ev.trig j n c] := by
  refine ⟨?_, ?_, ?_, ?_, ?_⟩ <;>
    simp [pInit, pUnload, pStart, pEndCall, pEndTrig]

lemma idxAll_append (i : Nat) (d1 d2 : List Ev)
    (h1 : ∀ e ∈ d1, evIdx e = i) (h2 : ∀ e ∈ d2, evIdx e = i) :
    ∀ e ∈ d1 ++ d2, evIdx e = i :=
  fun e he => (List.mem_append.mp he).elim (h1 e) (h2 e)

/-- The setup loop appends only setup-invocation events of app `i`. -/
lemma drainSetups_delta (i : Nat) :
    ∀ (fs : List Callback) (k : Nat) (c : Config) (tr : List Ev),
      ∃ d, (drainSetups i k fs c tr).2.1 = tr ++ d ∧
        (∀ e ∈ d, evIdx e = i) ∧ NoI i d := by
  intro fs
  induction fs with
  | nil =>
    intro k c tr
    exact ⟨[], by simp [drainSetups], by simp, NoI_nil i⟩
  | cons f fs ih =>
    intro k c tr
    rcases hfc : f c with ⟨c2, e⟩
    cases e with
    | some err =>
      refine ⟨[Ev.setupCall i k c], ?_, ?_, NoI_setupCall i i k c⟩
      · simp [drainSetups, hfc]
      · intro e he
        simp at he
        simp [he, evIdx]
    | none =>
      obtain ⟨d1, hd1, hidx1, hni1⟩ := ih (k + 1) c2 (tr ++ [Ev.setupCall i k c])
      refine ⟨Ev.setupCall i k c :: d1, ?_, ?_, ?_⟩
      · simp only [drainSetups, hfc]
        rw [hd1]
        simp
      · intro e he
        rcases List.mem_cons.mp he with rfl | hm
        · simp [evIdx]
        · exact hidx1 e hm
      · have := NoI_append i [Ev.setupCall i k c] d1 (NoI_setupCall i i k c) hni1
        simpa using this

/-- The body of `_initialize` appends exactly one initialize-body
marker, at most one start invocation, no unload markers and no end
events, and it sets `_hasInitialized` while leaving the once-flags
untouched. -/
lemma initializeBody_spec (i : Nat) (a : AppState) (tr : List Ev) :
    ∃ d, (initializeBody i a tr).2.1 = tr ++ d ∧ (∀ e ∈ d, evIdx e = i) ∧
      cnt (pInit i) d = 1 ∧ cnt (pUnload i) d = 0 ∧ cnt (pEndCall i) d = 0 ∧
      cnt (pEndTrig i) d = 0 ∧ cnt (pStart i) d ≤ 1 ∧
      (initializeBody i a tr).1.initOnce = a.initOnce ∧
      (initializeBody i a tr).1.unloadOnce = a.unloadOnce ∧
      (initializeBody i a tr).1.hasInitialized = true := by
  obtain ⟨d0, hd0, hidx0, hni0⟩ :=
    drainSetups_delta i a.setupCalls 0 a.config
      (tr ++ [Ev.initBody i, Ev.trig i LName.setupBefore a.config])
  obtain ⟨n1, n2, n3, n4, n5⟩ := hni0
  rcases hds : drainSetups i 0 a.setupCalls a.config
      (tr ++ [Ev.initBody i, Ev.trig i LName.setupBefore a.config]) with ⟨c1, tr2, e1⟩
  rw [hds] at hd0
  simp only at hd0
  have hpre : ∀ e ∈ [Ev.initBody i, Ev.trig i LName.setupBefore a.config],
      evIdx e = i := by
    intro e he
    rcases List.mem_cons.mp he with rfl | he2
    · simp [evIdx]
    · simp at he2
      simp [he2, evIdx]
  cases e1 with
  | some err =>
    refine ⟨[Ev.initBody i, Ev.trig i LName.setupBefore a.config] ++ d0,
      ?_, idxAll_append i _ _ hpre hidx0, ?_, ?_, ?_, ?_, ?_, ?_, ?_, ?_⟩ <;>
      simp [initializeBody, hds, hd0, n1, n2, n3, n4, n5, pInit, pUnload,
        pStart, pEndCall, pEndTrig]
  | none =>
    rcases hsc : (a.startCall.getD noopCall) c1 with ⟨c2, e2⟩
    have hpost : ∀ e ∈ [Ev.trig i LName.setupAfter c1, Ev.trig i LName.startBefore c1,
        Ev.startCallEv i c1], evIdx e = i := by
      intro e he
      simp at he
      rcases he with rfl | rfl | rfl <;> simp [evIdx]
    cases e2 with
    | some err =>
      refine ⟨([Ev.initBody i, Ev.trig i LName.setupBefore a.config] ++ d0) ++
        [Ev.trig i LName.setupAfter c1, Ev.trig i LName.startBefore c1,
          Ev.startCallEv i c1],
        ?_, idxAll_append i _ _ (idxAll_append i _ _ hpre hidx0) hpost,
        ?_, ?_, ?_, ?_, ?_, ?_, ?_, ?_⟩ <;>
        simp [initializeBody, hds, hsc, hd0, n1, n2, n3, n4, n5, pInit, pUnload,
          pStart, pEndCall, pEndTrig]
    | none =>
      have hpost2 : ∀ e ∈ [Ev.trig i LName.setupAfter c1, Ev.trig i LName.startBefore c1,
          Ev.startCallEv i c1, Ev.trig i LName.startAfter c2], evIdx e = i := by
        intro e he
        simp at he
        rcases he with rfl | rfl | rfl | rfl <;> simp [evIdx]
      refine ⟨([Ev.initBody i, Ev.trig i LName.setupBefore a.config] ++ d0) ++
        [Ev.trig i LName.setupAfter c1, Ev.trig i LName.startBefore c1,
          Ev.startCallEv i c1, Ev.trig i LName.startAfter c2],
        ?_, idxAll_append i _ _ (idxAll_append i _ _ hpre hidx0) hpost2,
        ?_, ?_, ?_, ?_, ?_, ?_, ?_, ?_⟩ <;>
        simp [initializeBody, hds, hsc, hd0, n1, n2, n3, n4, n5, pInit, pUnload,
          pStart, pEndCall, pEndTrig]

/-- The once-wrapped `_initialize` satisfies the per-step delta
specification. -/
lemma initialize_ActOK (i : Nat) (a : AppState) (tr : List Ev) :
    ActOK i a tr (initializeOnce i a tr) := by
  cases hio : a.initOnce with
  | true =>
    have heq : initializeOnce i a tr = (a, tr, none) := by simp [initializeOnce, hio]
    rw [heq]
    exact ⟨[], by simp, by simp, ActOKd_nil i a⟩
  | false =>
    have heq : initializeOnce i a tr = initializeBody i { a with initOnce := true } tr := by
      simp [initializeOnce, hio]
    obtain ⟨d, hd, hidx, c1, c2, c3, c4, c5, f1, f2, f3⟩ :=
      initializeBody_spec i { a with initOnce := true } tr
    simp only at f1 f2
    rw [heq]
    refine ⟨d, hd, hidx, ⟨?_, ?_, ?_, ?_, ?_, ?_, ?_, ?_, ?_⟩⟩
    · rw [c1, f1, hio]
      simp
    · rw [c2, f2]
      cases a.unloadOnce <;> simp
    · rw [c3, c2]
    · rw [c4, c2]
    · rw [c1]
      exact c5
    · exact fun _ => f1
    · exact fun _ => f3
    · intro h
      rw [f2]
      exact h
    · exact fun _ _ => f1

/-- The body of `_unload` does nothing when the app never initialized;
otherwise it appends exactly one unload-body marker, at most one end
callback invocation, at most one `end` emission, no initialize markers
and no start invocations.  It never changes the guard flags. -/
lemma unloadBody_spec (i : Nat) (a : AppState) (tr : List Ev) :
    ∃ d, (unloadBody i a tr).2.1 = tr ++ d ∧ (∀ e ∈ d, evIdx e = i) ∧
      (a.hasInitialized = false → d = []) ∧
      (a.hasInitialized = true → cnt (pUnload i) d = 1 ∧
        cnt (pEndCall i) d ≤ 1 ∧ cnt (pEndTrig i) d ≤ 1) ∧
      cnt (pInit i) d = 0 ∧ cnt (pStart i) d = 0 ∧
      (unloadBody i a tr).1.initOnce = a.initOnce ∧
      (unloadBody i a tr).1.unloadOnce = a.unloadOnce ∧
      (unloadBody i a tr).1.hasInitialized = a.hasInitialized := by
  cases hh : a.hasInitialized with
  | false =>
    refine ⟨[], ?_, by simp, fun _ => rfl, fun hc => absurd hc (by simp [hh]),
      rfl, rfl, ?_, ?_, ?_⟩ <;> simp [unloadBody, hh]
  | true =>
    cases hec : a.endCall with
    | none =>
      refine ⟨[Ev.unloadBody i, Ev.endTrig i], ?_, ?_, fun hc => absurd hc (by simp [hh]),
        fun _ => ⟨?_, ?_, ?_⟩, ?_, ?_, ?_, ?_, ?_⟩ <;>
        simp [unloadBody, hh, hec, evIdx, pInit, pUnload, pStart, pEndCall, pEndTrig]
    | some f =>
      rcases hfc : f a.config with ⟨c2, e2⟩
      cases e2 with
      | some err =>
        refine ⟨[Ev.unloadBody i, Ev.endCallEv i a.config], ?_, ?_,
          fun hc => absurd hc (by simp [hh]), fun _ => ⟨?_, ?_, ?_⟩, ?_, ?_, ?_, ?_, ?_⟩ <;>
          simp [unloadBody, hh, hec, hfc, evIdx, pInit, pUnload, pStart, pEndCall, pEndTrig]
      | none =>
        refine ⟨[Ev.unloadBody i, Ev.endCallEv i a.config, Ev.endTrig i], ?_, ?_,
          fun hc => absurd hc (by simp [hh]), fun _ => ⟨?_, ?_, ?_⟩, ?_, ?_, ?_, ?_, ?_⟩ <;>
          simp [unloadBody, hh, hec, hfc, evIdx, pInit, pUnload, pStart, pEndCall, pEndTrig]

/-- The once-wrapped `_unload` satisfies the per-step delta
specification. -/
lemma unload_ActOK (i : Nat) (a : AppState) (tr : List Ev) :
    ActOK i a tr (_unload i a tr) := by
  cases hu : a.unloadOnce with
  | true =>
    have heq : _unload i a tr = (a, tr, none) := by simp [_unload, hu]
    rw [heq]
    exact ⟨[], by simp, by simp, ActOKd_nil i a⟩
  | false =>
    have heq : _unload i a tr = unloadBody i { a with unloadOnce := true } tr := by
      simp [_unload, hu]
    obtain ⟨d, hd, hidx, z1, z2, c1, c2, f1, f2, f3⟩ :=
      unloadBody_spec i { a with unloadOnce := true } tr
    simp only at z1 z2 f1 f2 f3
    rw [heq]
    refine ⟨d, hd, hidx, ⟨?_, ?_, ?_, ?_, ?_, ?_, ?_, ?_, ?_⟩⟩
    · rw [c1, f1]
      cases a.initOnce <;> simp
    · rw [f2, hu]
      cases hh : a.hasInitialized
      · rw [z1 hh]
        simp
      · rw [(z2 hh).1]
        simp
    · cases hh : a.hasInitialized
      · rw [z1 hh]
        simp
      · obtain ⟨u1, u2, _⟩ := z2 hh
        rw [u1]
        exact u2
    · cases hh : a.hasInitialized
      · rw [z1 hh]
        simp
      · obtain ⟨u1, _, u3⟩ := z2 hh
        rw [u1]
        exact u3
    · rw [c1, c2]
    · intro h
      rw [f1]
      exact h
    · intro h
      rw [f3]
      exact h
    · exact fun _ => f2
    · intro himp hh
      rw [f3] at hh
      rw [f1]
      exact himp hh

/-- The gating check satisfies the per-step delta specification. -/
lemma check_ActOK (lb : Int) (rdy : Bool) (i : Nat) (a : AppState) (tr : List Ev) :
    ActOK i a tr (_check lb rdy i a tr) := by
  by_cases hl : lb > 0
  · have heq : _check lb rdy i a tr = (a, tr, none) := by simp [_check, hl]
    rw [heq]
    exact ⟨[], by simp, by simp, ActOKd_nil i a⟩
  · cases hc : a.isIgnited || rdy with
    | true =>
      have heq : _check lb rdy i a tr = initializeOnce i a tr := by simp [_check, hl, hc]
      rw [heq]
      exact initialize_ActOK i a tr
    | false =>
      have heq : _check lb rdy i a tr = (a, tr, none) := by simp [_check, hl, hc]
      rw [heq]
      exact ⟨[], by simp, by simp, ActOKd_nil i a⟩

/-- The method `smother` satisfies the per-step delta specification. -/
lemma smother_ActOK (i : Nat) (sil : Bool) (a : AppState) (tr : List Ev) :
    ActOK i a tr (smother i sil a tr) := by
  cases hh : a.hasInitialized with
  | false =>
    have heq : smother i sil a tr = (a, tr, none) := by simp [smother, hh]
    rw [heq]
    exact ⟨[], by simp, by simp, ActOKd_nil i a⟩
  | true =>
    cases sil with
    | false =>
      have heq : smother i false a tr = _unload i a tr := by simp [smother, hh]
      rw [heq]
      exact unload_ActOK i a tr
    | true =>
      have heq : smother i true a tr = (a, tr, none) := by simp [smother, hh]
      rw [heq]
      exact ⟨[], by simp, by simp, ActOKd_nil i a⟩

/-- The method `ignite` (flag flip followed by a check) satisfies the per-step
delta specification relative to the original app state. -/
lemma ignite_ActOK (lb : Int) (rdy : Bool) (i : Nat) (a : AppState) (tr : List Ev) :
    ActOK i a tr (_check lb rdy i { a with isIgnited := true } tr) := by
  obtain ⟨d, hd, hidx, hok⟩ := check_ActOK lb rdy i { a with isIgnited := true } tr
  exact ⟨d, hd, hidx, ActOKd_congr i { a with isIgnited := true } a _ d rfl rfl rfl hok⟩

/-- The `document:ready` dispatch satisfies the delta specification. -/
lemma readyDispatch_ActOK (lb : Int) (j : Nat) (a : AppState) (tr : List Ev) :
    ActOK j a tr (readyDispatch lb j a tr) := by
  cases hs : a.subscribedReady with
  | true =>
    have heq : readyDispatch lb j a tr = _check lb true j a tr := by
      simp [readyDispatch, hs]
    rw [heq]
    exact check_ActOK lb true j a tr
  | false =>
    have heq : readyDispatch lb j a tr = (a, tr, none) := by simp [readyDispatch, hs]
    rw [heq]
    exact ⟨[], by simp, by simp, ActOKd_nil j a⟩

/-- The `window:unload` dispatch satisfies the delta specification. -/
lemma unloadDispatch_ActOK (j : Nat) (a : AppState) (tr : List Ev) :
    ActOK j a tr (unloadDispatch j a tr) := by
  cases hs : a.autoEnd with
  | true =>
    have heq : unloadDispatch j a tr = _unload j a tr := by simp [unloadDispatch, hs]
    rw [heq]
    exact unload_ActOK j a tr
  | false =>
    have heq : unloadDispatch j a tr = (a, tr, none) := by simp [unloadDispatch, hs]
    rw [heq]
    exact ⟨[], by simp, by simp, ActOKd_nil j a⟩

/-! ## Indexed access lemmas -/
@[simp] lemma appAtL_nil (i : Nat) : appAtL [] i = defaultApp := by
  cases i <;> rfl

@[simp] lemma appAtL_cons_zero (a : AppState) (l : List AppState) :
    appAtL (a :: l) 0 = a := rfl

@[simp] lemma appAtL_cons_succ (a : AppState) (l : List AppState) (n : Nat) :
    appAtL (a :: l) (n + 1) = appAtL l n := rfl

lemma appAtL_ge (l : List AppState) : ∀ i, l.length ≤ i → appAtL l i = defaultApp := by
  induction l with
  | nil => intro i _; simp
  | cons a l ih =>
    intro i hi
    cases i with
    | zero => simp at hi
    | succ n =>
      simp only [appAtL_cons_succ]
      exact ih n (by simpa using hi)

lemma length_setAt (b : AppState) : ∀ (l : List AppState) (i : Nat),
    (setAt l i b).length = l.length := by
  intro l
  induction l with
  | nil => intro i; rfl
  | cons a l ih =>
    intro i
    cases i with
    | zero => rfl
    | succ n => simp [setAt, ih n]

lemma appAtL_setAt_self (b : AppState) : ∀ (l : List AppState) (i : Nat),
    i < l.length → appAtL (setAt l i b) i = b := by
  intro l
  induction l with
  | nil => intro i hi; simp at hi
  | cons a l ih =>
    intro i hi
    cases i with
    | zero => rfl
    | succ n => exact ih n (by simpa using hi)

lemma appAtL_setAt_ne (b : AppState) : ∀ (l : List AppState) (i j : Nat),
    j ≠ i → appAtL (setAt l i b) j = appAtL l j := by
  intro l
  induction l with
  | nil => intro i j _; cases j <;> rfl
  | cons a l ih =>
    intro i j hne
    cases i with
    | zero =>
      cases j with
      | zero => exact absurd rfl hne
      | succ m => rfl
    | succ n =>
      cases j with
      | zero => rfl
      | succ m =>
        simp only [setAt, appAtL_cons_succ]
        exact ih n m (by omega)

lemma appAtL_append_lt (l l2 : List AppState) : ∀ i, i < l.length →
    appAtL (l ++ l2) i = appAtL l i := by
  induction l with
  | nil => intro i hi; simp at hi
  | cons a l ih =>
    intro i hi
    cases i with
    | zero => rfl
    | succ n =>
      simp only [List.cons_append, appAtL_cons_succ]
      exact ih n (by simpa using hi)

lemma appAtL_append_self (l : List AppState) (b : AppState) :
    appAtL (l ++ [b]) l.length = b := by
  induction l with
  | nil => rfl
  | cons a l ih => simpa using ih

lemma appAtL_append_gt (l : List AppState) (b : AppState) : ∀ i, l.length < i →
    appAtL (l ++ [b]) i = defaultApp := by
  intro i hi
  refine appAtL_ge (l ++ [b]) i ?_
  simp
  omega

/-! ## The broadcast iteration -/
/-- Iterating `foldApps` over an action family satisfying the per-app delta
specification: the result keeps the list length, the trace delta stays
in the index window, and positionally every app satisfies the delta
specification against the whole delta. -/
lemma foldApps_spec (f : Nat → AppState → List Ev → AppState × List Ev × Option Err)
    (hf : ∀ j a tr, ActOK j a tr (f j a tr)) :
    ∀ (l : List AppState) (k : Nat) (tr : List Ev),
      (foldApps f l k tr).1.length = l.length ∧
      ∃ d, (foldApps f l k tr).2.1 = tr ++ d ∧
        (∀ e ∈ d, k ≤ evIdx e ∧ evIdx e < k + l.length) ∧
        ∀ pos, ActOKd (k + pos) (appAtL l pos) (appAtL (foldApps f l k tr).1 pos) d := by
  intro l
  induction l with
  | nil =>
    intro k tr
    have hres : foldApps f [] k tr = ([], tr, none) := rfl
    rw [hres]
    exact ⟨rfl, [], by simp, by simp, fun pos => by simpa using ActOKd_nil (k + pos) defaultApp⟩
  | cons a rest ih =>
    intro k tr
    obtain ⟨d0, hd0, hidx0, hok0⟩ := hf k a tr
    rcases hr : f k a tr with ⟨a2, tr2, e⟩
    rw [hr] at hd0 hok0
    simp only at hd0 hok0
    cases e with
    | some err =>
      have hres : foldApps f (a :: rest) k tr = (a2 :: rest, tr2, some err) := by
        simp [foldApps, hr]
      rw [hres]
      refine ⟨by simp, d0, by simpa using hd0, ?_, ?_⟩
      · intro e he
        rw [hidx0 e he]
        constructor
        · exact le_refl k
        · simp
      · intro pos
        cases pos with
        | zero => simpa using hok0
        | succ n =>
          simp only [appAtL_cons_succ]
          refine ActOKd_same (k + (n + 1)) (appAtL rest n) d0 ?_
          refine NoI_of_idx_ne _ _ fun e he => ?_
          rw [hidx0 e he]
          omega
    | none =>
      obtain ⟨hlen1, d1, hd1, hrange1, hpos1⟩ := ih (k + 1) tr2
      rcases hrec : foldApps f rest (k + 1) tr2 with ⟨rest2, tr3, e2⟩
      rw [hrec] at hlen1 hd1 hpos1
      simp only at hlen1 hd1 hpos1
      have hres : foldApps f (a :: rest) k tr = (a2 :: rest2, tr3, e2) := by
        simp [foldApps, hr, hrec]
      rw [hres]
      have hNoI0 : ∀ j, j ≠ k → NoI j d0 := by
        intro j hj
        refine NoI_of_idx_ne _ _ fun e he => ?_
        rw [hidx0 e he]
        omega
      have hNoI1 : ∀ j, j < k + 1 → NoI j d1 := by
        intro j hj
        refine NoI_of_idx_ne _ _ fun e he => ?_
        have := (hrange1 e he).1
        omega
      refine ⟨by simp [hlen1], d0 ++ d1, ?_, ?_, ?_⟩
      · rw [hd1, hd0, List.append_assoc]
      · intro e he
        rcases List.mem_append.mp he with h0 | h1
        · rw [hidx0 e h0]
          constructor
          · exact le_refl k
          · simp
        · have := hrange1 e h1
          simp only [List.length_cons]
          omega
      · intro pos
        cases pos with
        | zero =>
          simp only [appAtL_cons_zero, Nat.add_zero]
          exact ActOKd_append_right k a a2 d0 d1 hok0 (hNoI1 k (by omega))
        | succ n =>
          simp only [appAtL_cons_succ]
          have heq : k + (n + 1) = (k + 1) + n := by omega
          rw [heq]
          exact ActOKd_append_left _ _ _ d0 d1 (hNoI0 _ (by omega)) (hpos1 n)

/-- A single-app action lifted to the system satisfies the per-step
delta specification at every index. -/
lemma appOp_spec (s : SysState) (i0 : Nat)
    (act : AppState → List Ev → AppState × List Ev × Option Err)
    (hact : ∀ a tr, ActOK i0 a tr (act a tr)) :
    ∃ d, (appOp s i0 act).1.trace = s.trace ++ d ∧
      ∀ i, ActOKd i (appAt s i) (appAt (appOp s i0 act).1 i) d := by
  by_cases hi : i0 < s.apps.length
  · obtain ⟨d, hd, hidx, hok⟩ := hact (appAtL s.apps i0) s.trace
    rcases hr : act (appAtL s.apps i0) s.trace with ⟨a2, tr2, e⟩
    rw [hr] at hd hok
    simp only at hd hok
    have hres : appOp s i0 act =
        ({ s with apps := setAt s.apps i0 a2, trace := tr2 }, e) := by
      simp [appOp, hi, hr]
    rw [hres]
    refine ⟨d, hd, ?_⟩
    intro i
    by_cases hii : i = i0
    · subst hii
      simp only [appAt]
      rw [appAtL_setAt_self a2 s.apps i hi]
      exact hok
    · simp only [appAt]
      rw [appAtL_setAt_ne a2 s.apps i0 i hii]
      refine ActOKd_same i (appAtL s.apps i) d ?_
      refine NoI_of_idx_ne _ _ fun e he => ?_
      rw [hidx e he]
      omega
  · have hres : appOp s i0 act = (s, none) := by simp [appOp, hi]
    rw [hres]
    exact ⟨[], by simp, fun i => ActOKd_nil i (appAt s i)⟩

/-- Every system step satisfies the per-step delta specification at
every app index. -/
lemma applyOp_spec (s : SysState) (op : Op) :
    ∃ d, (applyOp s op).1.trace = s.trace ++ d ∧
      ∀ i, ActOKd i (appAt s i) (appAt (applyOp s op).1 i) d := by
  cases op with
  | lock =>
    exact ⟨[], by simp [applyOp], fun i => ActOKd_nil i (appAt s i)⟩
  | setup i0 f =>
    exact appOp_spec s i0 _ fun a tr =>
      ⟨[], by simp, by simp, ActOKd_nil_of_eq i0 a _ rfl rfl rfl⟩
  | start i0 f =>
    exact appOp_spec s i0 _ fun a tr =>
      ⟨[], by simp, by simp, ActOKd_nil_of_eq i0 a _ rfl rfl rfl⟩
  | endReg i0 f =>
    exact appOp_spec s i0 _ fun a tr =>
      ⟨[], by simp, by simp, ActOKd_nil_of_eq i0 a _ rfl rfl rfl⟩
  | ignite i0 =>
    exact appOp_spec s i0 _ fun a tr =>
      ignite_ActOK s.lockBarrier s.isDocReady i0 a tr
  | smother i0 sil =>
    exact appOp_spec s i0 _ fun a tr => smother_ActOK i0 sil a tr
  | docReady =>
    obtain ⟨hlen, d, hd, hrange, hpos⟩ :=
      foldApps_spec (readyDispatch s.lockBarrier)
        (fun j a tr => readyDispatch_ActOK s.lockBarrier j a tr) s.apps 0 s.trace
    rcases hr : foldApps (readyDispatch s.lockBarrier) s.apps 0 s.trace with ⟨l2, tr2, e⟩
    rw [hr] at hlen hd hpos
    simp only [Nat.zero_add] at hlen hd hpos
    have hres : applyOp s Op.docReady =
        ({ s with isDocReady := true, apps := l2, trace := tr2 }, e) := by
      simp [applyOp, hr]
    rw [hres]
    exact ⟨d, hd, fun i => hpos i⟩
  | windowUnload =>
    obtain ⟨hlen, d, hd, hrange, hpos⟩ :=
      foldApps_spec unloadDispatch (fun j a tr => unloadDispatch_ActOK j a tr)
        s.apps 0 s.trace
    rcases hr : foldApps unloadDispatch s.apps 0 s.trace with ⟨l2, tr2, e⟩
    rw [hr] at hlen hd hpos
    simp only [Nat.zero_add] at hlen hd hpos
    have hres : applyOp s Op.windowUnload =
        ({ s with apps := l2, trace := tr2 }, e) := by
      simp [applyOp, hr]
    rw [hres]
    exact ⟨d, hd, fun i => hpos i⟩
  | unlock =>
    obtain ⟨hlen, d, hd, hrange, hpos⟩ :=
      foldApps_spec (_check (s.lockBarrier - 1) s.isDocReady)
        (fun j a tr => check_ActOK (s.lockBarrier - 1) s.isDocReady j a tr)
        s.apps 0 s.trace
    rcases hr : foldApps (_check (s.lockBarrier - 1) s.isDocReady) s.apps 0 s.trace
      with ⟨l2, tr2, e⟩
    rw [hr] at hlen hd hpos
    simp only [Nat.zero_add] at hlen hd hpos
    have hres : applyOp s Op.unlock =
        ({ s with lockBarrier := s.lockBarrier - 1, apps := l2, trace := tr2 }, e) := by
      simp [applyOp, _runChecks, hr]
    rw [hres]
    exact ⟨d, hd, fun i => hpos i⟩
  | newApp as ae =>
    by_cases hcase : (as && s.isDocReady) = true
    · obtain ⟨d, hd, hidx, hok⟩ :=
        check_ActOK s.lockBarrier s.isDocReady s.apps.length
          (freshApp as ae s.isDocReady) s.trace
      rcases hr : _check s.lockBarrier s.isDocReady s.apps.length
          (freshApp as ae s.isDocReady) s.trace with ⟨a2, tr2, e⟩
      rw [hr] at hd hok
      simp only at hd hok
      have hres : applyOp s (Op.newApp as ae) =
          ({ s with apps := s.apps ++ [a2], trace := tr2 }, e) := by
        simp [applyOp, hcase, hr]
      rw [hres]
      refine ⟨d, hd, ?_⟩
      intro i
      rcases Nat.lt_trichotomy i s.apps.length with hlt | heq | hgt
      · simp only [appAt]
        rw [appAtL_append_lt s.apps [a2] i hlt]
        refine ActOKd_same i (appAtL s.apps i) d ?_
        refine NoI_of_idx_ne _ _ fun e he => ?_
        rw [hidx e he]
        omega
      · subst heq
        simp only [appAt]
        rw [appAtL_append_self s.apps a2, appAtL_ge s.apps s.apps.length (le_refl _)]
        exact ActOKd_congr s.apps.length (freshApp as ae s.isDocReady) defaultApp a2 d rfl rfl rfl hok
      · simp only [appAt]
        rw [appAtL_append_gt s.apps a2 i hgt, appAtL_ge s.apps i (by omega)]
        refine ActOKd_same i defaultApp d ?_
        refine NoI_of_idx_ne _ _ fun e he => ?_
        rw [hidx e he]
        omega
    · have hres : applyOp s (Op.newApp as ae) =
          ({ s with apps := s.apps ++ [freshApp as ae s.isDocReady] }, none) := by
        simp [applyOp, hcase]
      rw [hres]
      refine ⟨[], by simp, ?_⟩
      intro i
      rcases Nat.lt_trichotomy i s.apps.length with hlt | heq | hgt
      · simp only [appAt]
        rw [appAtL_append_lt s.apps _ i hlt]
        exact ActOKd_nil i (appAtL s.apps i)
      · subst heq
        simp only [appAt]
        rw [appAtL_append_self s.apps _, appAtL_ge s.apps s.apps.length (le_refl _)]
        exact ActOKd_nil_of_eq s.apps.length defaultApp _ rfl rfl rfl
      · simp only [appAt]
        rw [appAtL_append_gt s.apps _ i hgt, appAtL_ge s.apps i (by omega)]
        exact ActOKd_nil i defaultApp

/-- One delta-specified step preserves the per-app invariant. -/
lemma Good_step (tr d : List Ev) (i : Nat) (a a2 : AppState)
    (hg : Good tr i a) (hs : ActOKd i a a2 d) : Good (tr ++ d) i a2 := by
  obtain ⟨g1, g2, g3, g4, g5, g6, g7⟩ := hg
  obtain ⟨h1, h2, h3, h4, h5, m1, m2, m3, m4⟩ := hs
  refine ⟨?_, ?_, ?_, ?_, ?_, ?_, m4 g7⟩
  · rw [cnt_append, g1, h1]
    cases hx : a.initOnce
    · cases hy : a2.initOnce <;> simp
    · rw [m1 hx]
      simp
  · rw [cnt_append, h2]
    cases hx : a.unloadOnce
    · cases hy : a2.unloadOnce
      · simp only [hx, if_false] at g2
        simp [g2, Nat.le_zero.mp g2]
      · rcases Nat.le_zero.mp (by simpa [hx] using g2) with g2z
        cases hz : a.hasInitialized <;> simp [g2z]
    · rw [m3 hx]
      simp only [Bool.not_true, Bool.false_and, if_false, Nat.add_zero]
      simpa [hx] using g2
  · intro hfalse
    have hafalse : a.hasInitialized = false := by
      cases hy : a.hasInitialized
      · rfl
      · rw [m2 hy] at hfalse
        exact absurd hfalse (by simp)
    rw [cnt_append, g3 hafalse, h2, hafalse]
    simp
  · rw [cnt_append, cnt_append]
    omega
  · rw [cnt_append, cnt_append]
    omega
  · rw [cnt_append, cnt_append]
    omega

lemma Inv_applyOp (s : SysState) (op : Op) (h : Inv s) : Inv (applyOp s op).1 := by
  obtain ⟨d, hd, hpos⟩ := applyOp_spec s op
  intro i
  rw [hd]
  exact Good_step s.trace d i (appAt s i) _ (h i) (hpos i)

lemma Inv_initSys : Inv initSys := by
  intro i
  refine ⟨?_, ?_, ?_, ?_, ?_, ?_, ?_⟩ <;>
    simp [initSys, appAt, defaultApp]

lemma Inv_run : ∀ (ops : List Op) (s : SysState), Inv s → Inv (run s ops) := by
  intro ops
  induction ops with
  | nil => exact fun s h => h
  | cons op ops ih =>
    intro s h
    exact ih (applyOp s op).1 (Inv_applyOp s op h)

lemma Inv_run_initSys (ops : List Op) : Inv (run initSys ops) :=
  Inv_run ops initSys Inv_initSys

/-! ## Monotonicity along runs -/
lemma applyOp_mono (s : SysState) (op : Op) (i : Nat) :
    ((appAt s i).hasInitialized = true →
      (appAt (applyOp s op).1 i).hasInitialized = true) ∧
    ((appAt s i).initOnce = true → (appAt (applyOp s op).1 i).initOnce = true) := by
  obtain ⟨d, hd, hpos⟩ := applyOp_spec s op
  exact ⟨(hpos i).mHas, (hpos i).mInit⟩

lemma run_mono : ∀ (ops : List Op) (s : SysState) (i : Nat),
    ((appAt s i).hasInitialized = true →
      (appAt (run s ops) i).hasInitialized = true) ∧
    ((appAt s i).initOnce = true → (appAt (run s ops) i).initOnce = true) := by
  intro ops
  induction ops with
  | nil => exact fun s i => ⟨id, id⟩
  | cons op ops ih =>
    intro s i
    constructor
    · intro h
      exact (ih (applyOp s op).1 i).1 ((applyOp_mono s op i).1 h)
    · intro h
      exact (ih (applyOp s op).1 i).2 ((applyOp_mono s op i).2 h)

lemma run_append (s : SysState) : ∀ (l1 l2 : List Op),
    run s (l1 ++ l2) = run (run s l1) l2 := by
  intro l1
  induction l1 generalizing s with
  | nil => intro l2; rfl
  | cons op l1 ih =>
    intro l2
    simp only [List.cons_append, run]
    exact ih (applyOp s op).1 l2

/-- Once the initialize once-flag of app `i` is consumed, no later
stimulus can add a start-callback invocation for `i` to the trace. -/
lemma run_start_freeze : ∀ (ops : List Op) (s : SysState) (i : Nat),
    (appAt s i).initOnce = true →
    cnt (pStart i) (run s ops).trace = cnt (pStart i) s.trace := by
  intro ops
  induction ops with
  | nil => intro s i _; rfl
  | cons op ops ih =>
    intro s i hio
    obtain ⟨d, hd, hpos⟩ := applyOp_spec s op
    have hio2 : (appAt (applyOp s op).1 i).initOnce = true := (hpos i).mInit hio
    have hd0 : cnt (pInit i) d = 0 := by
      rw [(hpos i).hInit, hio]
      simp
    have hs0 : cnt (pStart i) d = 0 :=
      Nat.le_zero.mp (hd0 ▸ (hpos i).hStart)
    have : cnt (pStart i) (applyOp s op).1.trace = cnt (pStart i) s.trace := by
      rw [hd, cnt_append, hs0]
      omega
    rw [run, ih (applyOp s op).1 i hio2, this]

/-- Draining a queue of non-raising callbacks yields the threaded
configuration, the FIFO invocation events, and no error. -/
lemma drainSetups_pure (i : Nat) : ∀ (fs : List Callback) (k : Nat) (c : Config)
    (tr : List Ev), (∀ f ∈ fs, PureCb f) →
    drainSetups i k fs c tr = (applyAll fs c, tr ++ setupTrace i k fs c, none) := by
  intro fs
  induction fs with
  | nil =>
    intro k c tr _
    simp [drainSetups, applyAll, setupTrace]
  | cons f fs ih =>
    intro k c tr h
    rcases hfc : f c with ⟨c2, e⟩
    have he : e = none := by
      have := h f (by simp) c
      rw [hfc] at this
      exact this
    subst he
    have h2 : ∀ g ∈ fs, PureCb g := fun g hg => h g (by simp [hg])
    have hstep : drainSetups i k (f :: fs) c tr =
        drainSetups i (k + 1) fs c2 (tr ++ [Ev.setupCall i k c]) := by
      simp [drainSetups, hfc]
    have happ : applyAll (f :: fs) c = applyAll fs c2 := by simp [applyAll, hfc]
    rw [hstep, ih (k + 1) c2 (tr ++ [Ev.setupCall i k c]) h2, happ]
    simp [setupTrace, hfc]

/-- Draining a queue whose prefix is pure and whose next callback raises
`e` stops at that callback: the prefix events plus the one raising
invocation, the partial mutation made by the raising callback, and error `e`. -/
lemma drainSetups_err (i : Nat) (f : Callback) (e : Err) (rest : List Callback) :
    ∀ (ps : List Callback) (k : Nat) (c : Config) (tr : List Ev),
    (∀ g ∈ ps, PureCb g) → (f (applyAll ps c)).2 = some e →
    drainSetups i k (ps ++ f :: rest) c tr =
      ((f (applyAll ps c)).1,
        tr ++ setupTrace i k ps c ++
          [Ev.setupCall i (k + ps.length) (applyAll ps c)], some e) := by
  intro ps
  induction ps with
  | nil =>
    intro k c tr _ herr
    simp only [applyAll] at herr ⊢
    rcases hfc : f c with ⟨c2, e2⟩
    rw [hfc] at herr
    simp only at herr
    subst herr
    simp [drainSetups, hfc, setupTrace]
  | cons g ps ih =>
    intro k c tr h herr
    rcases hgc : g c with ⟨c2, e2⟩
    have he : e2 = none := by
      have := h g (by simp) c
      rw [hgc] at this
      exact this
    subst he
    have h2 : ∀ x ∈ ps, PureCb x := fun x hx => h x (by simp [hx])
    have happ : applyAll (g :: ps) c = applyAll ps c2 := by
      simp [applyAll, hgc]
    rw [happ] at herr
    have hstep : drainSetups i k ((g :: ps) ++ f :: rest) c tr =
        drainSetups i (k + 1) (ps ++ f :: rest) c2 (tr ++ [Ev.setupCall i k c]) := by
      simp [drainSetups, hgc]
    rw [hstep, ih (k + 1) c2 (tr ++ [Ev.setupCall i k c]) h2 herr, happ]
    have hidx : k + 1 + ps.length = k + (g :: ps).length := by
      simp only [List.length_cons]
      omega
    rw [hidx]
    simp [setupTrace, hgc]

/-! ## Gating-check characterizations -/
lemma initialize_noop (i : Nat) (a : AppState) (tr : List Ev)
    (h : a.initOnce = true) : initializeOnce i a tr = (a, tr, none) := by
  simp [initializeOnce, h]

lemma check_noop_initOnce (lb : Int) (rdy : Bool) (i : Nat) (a : AppState)
    (tr : List Ev) (h : a.initOnce = true) : _check lb rdy i a tr = (a, tr, none) := by
  by_cases hl : lb > 0
  · simp [_check, hl]
  · cases hc : a.isIgnited || rdy
    · simp [_check, hl, hc]
    · simp [_check, hl, hc, initialize_noop i a tr h]

lemma check_inits (lb : Int) (rdy : Bool) (i : Nat) (a : AppState) (tr : List Ev)
    (hl : ¬lb > 0) (hc : (a.isIgnited || rdy) = true) (h0 : a.initOnce = false) :
    (_check lb rdy i a tr).1.hasInitialized = true ∧
    cnt (pInit i) (_check lb rdy i a tr).2.1 = cnt (pInit i) tr + 1 := by
  have heq : _check lb rdy i a tr = initializeBody i { a with initOnce := true } tr := by
    simp [_check, hl, hc, initializeOnce, h0]
  obtain ⟨d, hd, _, c1, _, _, _, _, _, _, f3⟩ :=
    initializeBody_spec i { a with initOnce := true } tr
  rw [heq]
  refine ⟨f3, ?_⟩
  rw [hd, cnt_append, c1]

/-! ## Positional lemmas on the broadcast iteration -/
/-- When every app before position `j` is checked without effect, the
app at `j` is acted on with the original trace, and the result list
holds the outcome at position `j`. -/
lemma foldApps_get_skip (f : Nat → AppState → List Ev → AppState × List Ev × Option Err) :
    ∀ (l : List AppState) (k : Nat) (tr : List Ev) (j : Nat), j < l.length →
    (∀ m, m < j → ∀ tr2, f (k + m) (appAtL l m) tr2 = (appAtL l m, tr2, none)) →
    appAtL (foldApps f l k tr).1 j = (f (k + j) (appAtL l j) tr).1 := by
  intro l
  induction l with
  | nil =>
    intro k tr j hj _
    simp at hj
  | cons a rest ih =>
    intro k tr j hj hskip
    cases j with
    | zero =>
      rcases hr : f k a tr with ⟨a2, tr2, e⟩
      have : (f (k + 0) (appAtL (a :: rest) 0) tr).1 = a2 := by
        simpa using congrArg Prod.fst hr
      rw [this]
      cases e with
      | some err => simp [foldApps, hr]
      | none =>
        rcases hrec : foldApps f rest (k + 1) tr2 with ⟨rest2, tr3, e2⟩
        simp [foldApps, hr, hrec]
    | succ j =>
      have hskip0 := hskip 0 (by omega) tr
      simp only [Nat.add_zero, appAtL_cons_zero] at hskip0
      rcases hrec : foldApps f rest (k + 1) tr with ⟨rest2, tr3, e2⟩
      have hres : foldApps f (a :: rest) k tr = (a :: rest2, tr3, e2) := by
        simp [foldApps, hskip0, hrec]
      rw [hres]
      simp only [appAtL_cons_succ]
      have hrec2 : appAtL (foldApps f rest (k + 1) tr).1 j =
          (f (k + 1 + j) (appAtL rest j) tr).1 := by
        refine ih (k + 1) tr j (by simpa using hj) ?_
        intro m hm tr2
        have := hskip (m + 1) (by omega) tr2
        simpa [Nat.add_comm, Nat.add_assoc, Nat.add_left_comm] using this
      rw [hrec] at hrec2
      simp only at hrec2
      rw [hrec2]
      have : k + 1 + j = k + (j + 1) := by omega
      rw [this]

/-- A property of the app at a position is preserved by the broadcast
iteration when the action at that position preserves it from any trace. -/
lemma foldApps_get_pres (f : Nat → AppState → List Ev → AppState × List Ev × Option Err)
    (P : AppState → Prop) :
    ∀ (l : List AppState) (k : Nat) (tr : List Ev) (pos : Nat), pos < l.length →
    (∀ tr2, P ((f (k + pos) (appAtL l pos) tr2).1)) → P (appAtL l pos) →
    P (appAtL (foldApps f l k tr).1 pos) := by
  intro l
  induction l with
  | nil =>
    intro k tr pos hpos _ _
    simp at hpos
  | cons a rest ih =>
    intro k tr pos hpos hstep hP
    rcases hr : f k a tr with ⟨a2, tr2, e⟩
    cases pos with
    | zero =>
      have h2 : P a2 := by
        have := hstep tr
        simp only [Nat.add_zero, appAtL_cons_zero] at this
        rw [hr] at this
        exact this
      cases e with
      | some err => simpa [foldApps, hr] using h2
      | none =>
        rcases hrec : foldApps f rest (k + 1) tr2 with ⟨rest2, tr3, e2⟩
        simpa [foldApps, hr, hrec] using h2
    | succ pos =>
      cases e with
      | some err =>
        have hres : foldApps f (a :: rest) k tr = (a2 :: rest, tr2, some err) := by
          simp [foldApps, hr]
        rw [hres]
        simpa using hP
      | none =>
        rcases hrec : foldApps f rest (k + 1) tr2 with ⟨rest2, tr3, e2⟩
        have hres : foldApps f (a :: rest) k tr = (a2 :: rest2, tr3, e2) := by
          simp [foldApps, hr, hrec]
        rw [hres]
        simp only [appAtL_cons_succ]
        have hih := ih (k + 1) tr2 pos (by simpa using hpos) ?_ (by simpa using hP)
        · rw [hrec] at hih
          simpa using hih
        · intro tr3
          have := hstep tr3
          simp only [appAtL_cons_succ] at this
          have heq : k + 1 + pos = k + (pos + 1) := by omega
          rw [heq]
          exact this

lemma Q5_unload (j : Nat) (a : AppState) (tr : List Ev) (h : Q5 a) :
    Q5 ((_unload j a tr).1) := by
  obtain ⟨q1, q2, q3, q4, q5⟩ := h
  cases hu : a.unloadOnce
  · have heq : _unload j a tr = unloadBody j { a with unloadOnce := true } tr := by
      simp [_unload, hu]
    have heq2 : unloadBody j { a with unloadOnce := true } tr =
        ({ a with unloadOnce := true }, tr, none) := by
      simp [unloadBody, q4]
    rw [heq, heq2]
    exact ⟨q1, q2, q3, q4, q5⟩
  · have heq : _unload j a tr = (a, tr, none) := by simp [_unload, hu]
    rw [heq]
    exact ⟨q1, q2, q3, q4, q5⟩

lemma Q5_smother (j : Nat) (sil : Bool) (a : AppState) (tr : List Ev) (h : Q5 a) :
    Q5 ((smother j sil a tr).1) := by
  obtain ⟨q1, q2, q3, q4, q5⟩ := h
  have heq : smother j sil a tr = (a, tr, none) := by simp [smother, q4]
  rw [heq]
  exact ⟨q1, q2, q3, q4, q5⟩

lemma Q5_readyDispatch (lb : Int) (j : Nat) (a : AppState) (tr : List Ev)
    (h : Q5 a) : Q5 ((readyDispatch lb j a tr).1) := by
  obtain ⟨q1, q2, q3, q4, q5⟩ := h
  have heq : readyDispatch lb j a tr = (a, tr, none) := by simp [readyDispatch, q5]
  rw [heq]
  exact ⟨q1, q2, q3, q4, q5⟩

lemma Q5_unloadDispatch (j : Nat) (a : AppState) (tr : List Ev) (h : Q5 a) :
    Q5 ((unloadDispatch j a tr).1) := by
  cases he : a.autoEnd
  · have heq : unloadDispatch j a tr = (a, tr, none) := by simp [unloadDispatch, he]
    rw [heq]
    exact h
  · have heq : unloadDispatch j a tr = _unload j a tr := by simp [unloadDispatch, he]
    rw [heq]
    exact Q5_unload j a tr h

lemma stepC5_appOp (s : SysState) (j i : Nat)
    (act : AppState → List Ev → AppState × List Ev × Option Err)
    (hi : i < s.apps.length) (hQ : Q5 (appAt s i))
    (hact : j = i → ∀ tr2, Q5 ((act (appAtL s.apps i) tr2).1)) :
    Q5 (appAt (appOp s j act).1 i) ∧ i < (appOp s j act).1.apps.length := by
  by_cases hj : j < s.apps.length
  · rcases hr : act (appAtL s.apps j) s.trace with ⟨a2, tr2, e⟩
    have hres : appOp s j act =
        ({ s with apps := setAt s.apps j a2, trace := tr2 }, e) := by
      simp [appOp, hj, hr]
    rw [hres]
    constructor
    · by_cases hji : j = i
      · subst hji
        simp only [appAt]
        rw [appAtL_setAt_self a2 s.apps j hj]
        have := hact rfl s.trace
        rw [hr] at this
        exact this
      · simp only [appAt]
        rw [appAtL_setAt_ne a2 s.apps j i fun hh => hji hh.symm]
        exact hQ
    · simp only [length_setAt]
      exact hi
  · have hres : appOp s j act = (s, none) := by simp [appOp, hj]
    rw [hres]
    exact ⟨hQ, hi⟩

/-- One step that is neither `ignite i` nor `unlock` keeps an
un-ignited `autoStart = false` app un-initialized. -/
lemma stepC5 (s : SysState) (op : Op) (i : Nat) (hi : i < s.apps.length)
    (hQ : Q5 (appAt s i)) (hni : op ≠ Op.ignite i) (hnu : op ≠ Op.unlock) :
    Q5 (appAt (applyOp s op).1 i) ∧ i < (applyOp s op).1.apps.length := by
  cases op with
  | lock => exact ⟨hQ, hi⟩
  | setup j f =>
    refine stepC5_appOp s j i _ hi hQ ?_
    intro hji tr2
    subst hji
    exact hQ
  | start j f =>
    refine stepC5_appOp s j i _ hi hQ ?_
    intro hji tr2
    subst hji
    exact hQ
  | endReg j f =>
    refine stepC5_appOp s j i _ hi hQ ?_
    intro hji tr2
    subst hji
    exact hQ
  | smother j sil =>
    refine stepC5_appOp s j i _ hi hQ ?_
    intro hji tr2
    subst hji
    exact Q5_smother j sil (appAtL s.apps j) tr2 hQ
  | ignite j =>
    refine stepC5_appOp s j i _ hi hQ ?_
    intro hji
    exact absurd (by rw [hji]) hni
  | unlock => exact absurd rfl hnu
  | docReady =>
    obtain ⟨hlen, _, _, _, _⟩ :=
      foldApps_spec (readyDispatch s.lockBarrier)
        (fun j a tr => readyDispatch_ActOK s.lockBarrier j a tr) s.apps 0 s.trace
    have hpres := foldApps_get_pres (readyDispatch s.lockBarrier) Q5 s.apps 0 s.trace
      i hi (fun tr2 => by
        simpa using Q5_readyDispatch s.lockBarrier i (appAtL s.apps i) tr2 hQ) hQ
    rcases hr : foldApps (readyDispatch s.lockBarrier) s.apps 0 s.trace with ⟨l2, tr2, e⟩
    rw [hr] at hlen hpres
    have hres : applyOp s Op.docReady =
        ({ s with isDocReady := true, apps := l2, trace := tr2 }, e) := by
      simp [applyOp, hr]
    rw [hres]
    simp only at hlen
    exact ⟨hpres, by simp only [appAt] at hpres ⊢; rw [hlen]; exact hi⟩
  | windowUnload =>
    obtain ⟨hlen, _, _, _, _⟩ :=
      foldApps_spec unloadDispatch (fun j a tr => unloadDispatch_ActOK j a tr)
        s.apps 0 s.trace
    have hpres := foldApps_get_pres unloadDispatch Q5 s.apps 0 s.trace
      i hi (fun tr2 => by
        simpa using Q5_unloadDispatch i (appAtL s.apps i) tr2 hQ) hQ
    rcases hr : foldApps unloadDispatch s.apps 0 s.trace with ⟨l2, tr2, e⟩
    rw [hr] at hlen hpres
    have hres : applyOp s Op.windowUnload =
        ({ s with apps := l2, trace := tr2 }, e) := by
      simp [applyOp, hr]
    rw [hres]
    simp only at hlen
    exact ⟨hpres, by rw [hlen]; exact hi⟩
  | newApp as ae =>
    by_cases hcase : (as && s.isDocReady) = true
    · rcases hr : _check s.lockBarrier s.isDocReady s.apps.length
          (freshApp as ae s.isDocReady) s.trace with ⟨a2, tr2, e⟩
      have hres : applyOp s (Op.newApp as ae) =
          ({ s with apps := s.apps ++ [a2], trace := tr2 }, e) := by
        simp [applyOp, hcase, hr]
      rw [hres]
      constructor
      · simp only [appAt]
        rw [appAtL_append_lt s.apps [a2] i hi]
        exact hQ
      · simp
        omega
    · have hres : applyOp s (Op.newApp as ae) =
          ({ s with apps := s.apps ++ [freshApp as ae s.isDocReady] }, none) := by
        simp [applyOp, hcase]
      rw [hres]
      constructor
      · simp only [appAt]
        rw [appAtL_append_lt s.apps _ i hi]
        exact hQ
      · simp
        omega

/-- Running any stimuli that include neither `ignite i` nor `unlock`
keeps an un-ignited `autoStart = false` app un-initialized. -/
lemma runC5 : ∀ (ops : List Op) (s : SysState) (i : Nat), i < s.apps.length →
    Q5 (appAt s i) → (∀ op ∈ ops, op ≠ Op.ignite i ∧ op ≠ Op.unlock) →
    Q5 (appAt (run s ops) i) := by
  intro ops
  induction ops with
  | nil => exact fun s i _ hQ _ => hQ
  | cons op ops ih =>
    intro s i hi hQ hops
    obtain ⟨h1, h2⟩ := stepC5 s op i hi hQ (hops op (by simp)).1 (hops op (by simp)).2
    exact ih (applyOp s op).1 i h2 h1 fun op2 hop2 => hops op2 (by simp [hop2])

/-! ## The claims -/
/-- C1: For every App, the body of the initialization transition
(`_initialize`) executes at most once, no matter how many times and
through which paths the gating check is invoked (document-ready firing,
repeated `ignite()` calls, repeated unlock broadcasts): only the first
passing check causes side effects, and `hasInitialized` goes false to
true exactly once and never reverts (it is monotone along any further
stimuli). -/
theorem initialize_at_most_once (ops more : List Op) (i : Nat) :
    cnt (pInit i) (run initSys ops).trace ≤ 1 ∧
    ((appAt (run initSys ops) i).hasInitialized = true →
      (appAt (run initSys (ops ++ more)) i).hasInitialized = true) := by
  constructor
  · have h := (Inv_run_initSys ops i).1
    rw [h]
    cases (appAt (run initSys ops) i).initOnce <;> simp
  · intro h
    rw [run_append]
    exact (run_mono more (run initSys ops) i).1 h

theorem initialize_at_most_once_witness :
    (appAt (run initSys [Op.newApp true true, Op.docReady]) 0).hasInitialized = true ∧
    cnt (pInit 0) (run initSys [Op.newApp true true, Op.docReady]).trace ≤ 1 ∧
    (appAt (run initSys ([Op.newApp true true, Op.docReady] ++
      [Op.unlock, Op.ignite 0])) 0).hasInitialized = true :=
  ⟨by decide,
    (initialize_at_most_once [Op.newApp true true, Op.docReady]
      [Op.unlock, Op.ignite 0] 0).1,
    (initialize_at_most_once [Op.newApp true true, Op.docReady]
      [Op.unlock, Op.ignite 0] 0).2 (by decide)⟩

/-- C2: For every App, the unload transition runs zero times if the App
never initialized (smother and the window-unload event are no-ops then),
and at most once if it did initialize; an App that never started never
invokes its end callback and never emits the `end` event. -/
theorem unload_at_most_once (ops : List Op) (i : Nat) :
    cnt (pUnload i) (run initSys ops).trace ≤ 1 ∧
    ((appAt (run initSys ops) i).hasInitialized = false →
      cnt (pUnload i) (run initSys ops).trace = 0 ∧
      cnt (pEndCall i) (run initSys ops).trace = 0 ∧
      cnt (pEndTrig i) (run initSys ops).trace = 0) := by
  obtain ⟨g1, g2, g3, g4, g5, g6, g7⟩ := Inv_run_initSys ops i
  constructor
  · refine g2.trans ?_
    cases (appAt (run initSys ops) i).unloadOnce <;> simp
  · intro h
    have hz := g3 h
    refine ⟨hz, ?_, ?_⟩
    · rw [hz] at g4
      omega
    · rw [hz] at g5
      omega

theorem unload_at_most_once_witness :
    (appAt (run initSys [Op.newApp true true, Op.smother 0 false, Op.windowUnload])
      0).hasInitialized = false ∧
    cnt (pUnload 0) (run initSys
      [Op.newApp true true, Op.smother 0 false, Op.windowUnload]).trace ≤ 1 ∧
    cnt (pEndCall 0) (run initSys
      [Op.newApp true true, Op.smother 0 false, Op.windowUnload]).trace = 0 :=
  ⟨by decide,
    (unload_at_most_once [Op.newApp true true, Op.smother 0 false, Op.windowUnload] 0).1,
    ((unload_at_most_once [Op.newApp true true, Op.smother 0 false, Op.windowUnload]
      0).2 (by decide)).2.1⟩

/-- C3: The gating check initializes an App exactly when the
process-wide lock counter is not greater than zero AND the App is
ignited or the document-ready flag is set; while the counter is
positive the check does nothing; and once an unlock returns the counter
to zero, an App whose condition was otherwise satisfied initializes on
the next broadcast check. -/
theorem gating_check (lb : Int) (rdy : Bool) (i : Nat) (a : AppState) (tr : List Ev)
    (s : SysState) (j : Nat) :
    (lb > 0 → _check lb rdy i a tr = (a, tr, none)) ∧
    (¬lb > 0 → (a.isIgnited || rdy) = true → a.initOnce = false →
      (_check lb rdy i a tr).1.hasInitialized = true ∧
      cnt (pInit i) (_check lb rdy i a tr).2.1 = cnt (pInit i) tr + 1) ∧
    (¬lb > 0 → (a.isIgnited || rdy) = false → _check lb rdy i a tr = (a, tr, none)) ∧
    (s.lockBarrier = 1 → j < s.apps.length →
      (∀ m, m < j → (appAt s m).initOnce = true) →
      (appAt s j).initOnce = false →
      ((appAt s j).isIgnited || s.isDocReady) = true →
      (appAt (applyOp s Op.unlock).1 j).hasInitialized = true) := by
  refine ⟨?_, ?_, ?_, ?_⟩
  · intro hl
    simp [_check, hl]
  · intro hl hc h0
    exact check_inits lb rdy i a tr hl hc h0
  · intro hl hc
    simp [_check, hl, hc]
  · intro hb hj hskip h0 hc
    rcases hr : foldApps (_check (s.lockBarrier - 1) s.isDocReady) s.apps 0 s.trace
      with ⟨l2, tr2, e⟩
    have hres : applyOp s Op.unlock =
        ({ s with lockBarrier := s.lockBarrier - 1, apps := l2, trace := tr2 }, e) := by
      simp [applyOp, _runChecks, hr]
    rw [hres]
    simp only [appAt]
    have hget := foldApps_get_skip (_check (s.lockBarrier - 1) s.isDocReady)
      s.apps 0 s.trace j hj ?_
    · rw [hr] at hget
      simp only [Nat.zero_add] at hget
      rw [hget]
      have hl0 : ¬(s.lockBarrier - 1) > 0 := by
        rw [hb]
        norm_num
      exact (check_inits (s.lockBarrier - 1) s.isDocReady j (appAtL s.apps j)
        s.trace hl0 hc h0).1
    · intro m hm tr3
      have := check_noop_initOnce (s.lockBarrier - 1) s.isDocReady (0 + m)
        (appAtL s.apps m) tr3 (hskip m hm)
      simpa using this

theorem gating_check_witness :
    _check 1 true 0 defaultApp [] = (defaultApp, [], none) ∧
    (_check 0 true 0 defaultApp []).1.hasInitialized = true ∧
    _check 0 false 0 defaultApp [] = (defaultApp, [], none) ∧
    (appAt (applyOp s3 Op.unlock).1 1).hasInitialized = true := by
  refine ⟨(gating_check 1 true 0 defaultApp [] s3 1).1 (by norm_num),
    ((gating_check 0 true 0 defaultApp [] s3 1).2.1 (by norm_num) (by decide)
      (by decide)).1,
    (gating_check 0 false 0 defaultApp [] s3 1).2.2.1 (by norm_num) (by decide),
    (gating_check 0 true 0 defaultApp [] s3 1).2.2.2 (by decide) (by decide)
      ?_ (by decide) (by decide)⟩
  intro m hm
  have hm0 : m = 0 := by omega
  subst hm0
  decide

/-- C4: During the one-shot initialization, `hasInitialized` is set
true, then `setup:before` is emitted with the config, then all queued
setup callbacks run in FIFO registration order each receiving the
config threaded through, and the queue is cleared; then `setup:after`
and `start:before` are emitted, the start callback (a default no-op if
none was registered) runs with the config and the reference is
discarded, and `start:after` is emitted.  Each of the four lifecycle
events appears exactly once, in that fixed order, and the start
callback receives the configuration produced by all setup callbacks. -/
theorem initialization_sequence (i : Nat) (a : AppState) (tr : List Ev)
    (h0 : a.initOnce = false)
    (hs : ∀ f ∈ a.setupCalls, PureCb f)
    (hst : ∀ f, a.startCall = some f → PureCb f) :
    (initializeOnce i a tr).2.1 =
      tr ++ [Ev.initBody i, Ev.trig i LName.setupBefore a.config] ++
        setupTrace i 0 a.setupCalls a.config ++
        [Ev.trig i LName.setupAfter (applyAll a.setupCalls a.config),
          Ev.trig i LName.startBefore (applyAll a.setupCalls a.config),
          Ev.startCallEv i (applyAll a.setupCalls a.config),
          Ev.trig i LName.startAfter
            ((a.startCall.getD noopCall) (applyAll a.setupCalls a.config)).1] ∧
    (initializeOnce i a tr).1.hasInitialized = true ∧
    (initializeOnce i a tr).1.setupCalls = [] ∧
    (initializeOnce i a tr).1.startCall = none ∧
    (initializeOnce i a tr).1.config =
      ((a.startCall.getD noopCall) (applyAll a.setupCalls a.config)).1 ∧
    (initializeOnce i a tr).2.2 = none := by
  have hpure : PureCb (a.startCall.getD noopCall) := by
    cases hoc : a.startCall with
    | none =>
      intro c
      rfl
    | some f => exact hst f hoc
  have heq : initializeOnce i a tr = initializeBody i { a with initOnce := true } tr := by
    simp [initializeOnce, h0]
  have hdrain := drainSetups_pure i a.setupCalls 0 a.config
    (tr ++ [Ev.initBody i, Ev.trig i LName.setupBefore a.config]) hs
  rcases hscr : (a.startCall.getD noopCall) (applyAll a.setupCalls a.config)
    with ⟨c2, e2⟩
  have he2 : e2 = none := by
    have := hpure (applyAll a.setupCalls a.config)
    rw [hscr] at this
    exact this
  subst he2
  rw [heq]
  refine ⟨?_, ?_, ?_, ?_, ?_, ?_⟩ <;>
    simp [initializeBody, hdrain, hscr, List.append_assoc]

theorem initialization_sequence_witness :
    (initializeOnce 0 wApp []).2.1 =
      [] ++ [Ev.initBody 0, Ev.trig 0 LName.setupBefore wApp.config] ++
        setupTrace 0 0 wApp.setupCalls wApp.config ++
        [Ev.trig 0 LName.setupAfter (applyAll wApp.setupCalls wApp.config),
          Ev.trig 0 LName.startBefore (applyAll wApp.setupCalls wApp.config),
          Ev.startCallEv 0 (applyAll wApp.setupCalls wApp.config),
          Ev.trig 0 LName.startAfter
            ((wApp.startCall.getD noopCall) (applyAll wApp.setupCalls wApp.config)).1] ∧
    (initializeOnce 0 wApp []).1.hasInitialized = true ∧
    (initializeOnce 0 wApp []).1.setupCalls = [] ∧
    (initializeOnce 0 wApp []).1.startCall = none ∧
    (initializeOnce 0 wApp []).1.config =
      ((wApp.startCall.getD noopCall) (applyAll wApp.setupCalls wApp.config)).1 ∧
    (initializeOnce 0 wApp []).2.2 = none := by
  refine initialization_sequence 0 wApp [] rfl ?_ ?_
  · intro f hf
    have hf2 : f = setupF1 ∨ f = setupF2 := by
      simpa [wApp] using hf
    rcases hf2 with rfl | rfl
    · intro c
      rfl
    · intro c
      rfl
  · intro f hf
    have hf2 : startF = f := by
      simpa [wApp] using hf
    subst hf2
    intro c
    rfl

/-- C5 counterexample: an App constructed with `autoStart = false`,
never ignited, initializes anyway once the document is ready and a
single `unlock()` broadcast arrives, because `_runChecks` re-checks
every registered app and `_check` never consults `autoStart`. -/
theorem autoStart_false_cex :
    (appAt (run initSys [Op.newApp false true, Op.docReady, Op.unlock])
      0).hasInitialized = true ∧
    (appAt (run initSys [Op.newApp false true, Op.docReady, Op.unlock])
      0).isIgnited = false := by
  constructor <;> decide

/-- C5 (amended): An App constructed with `autoStart = false` never
initializes as a consequence of environment readiness alone so long as
no unlock broadcast reaches it: over any stimuli containing neither
`ignite` on it nor `unlock`, it stays un-initialized.  (An `unlock()`
broadcast, however, re-checks all apps regardless of `autoStart`, so
with the document ready it can initialize even such an App — see the
counterexample; `ignite()` itself still respects the lock barrier,
which is covered by the gating-check theorem.) -/
theorem autoStart_false_no_spontaneous_init (s : SysState) (ops : List Op) (i : Nat)
    (hi : i < s.apps.length)
    (hA : (appAt s i).autoStart = false) (hG : (appAt s i).isIgnited = false)
    (hO : (appAt s i).initOnce = false) (hH : (appAt s i).hasInitialized = false)
    (hS : (appAt s i).subscribedReady = false)
    (hops : ∀ op ∈ ops, op ≠ Op.ignite i ∧ op ≠ Op.unlock) :
    (appAt (run s ops) i).hasInitialized = false ∧
    (appAt (run s ops) i).initOnce = false := by
  have h := runC5 ops s i hi ⟨hA, hG, hO, hH, hS⟩ hops
  exact ⟨h.2.2.2.1, h.2.2.1⟩

theorem autoStart_false_no_spontaneous_init_witness :
    0 < s5.apps.length ∧
    (appAt (run s5 [Op.docReady, Op.lock, Op.windowUnload]) 0).hasInitialized = false := by
  refine ⟨by decide, (autoStart_false_no_spontaneous_init s5
    [Op.docReady, Op.lock, Op.windowUnload] 0 (by decide) (by decide) (by decide)
    (by decide) (by decide) (by decide) ?_).1⟩
  intro op hop
  have hop2 : op = Op.docReady ∨ op = Op.lock ∨ op = Op.windowUnload := by
    simpa using hop
  rcases hop2 with rfl | rfl | rfl <;>
    exact ⟨fun h => Op.noConfusion h, fun h => Op.noConfusion h⟩

/-- C6: `smother(options)` on a never-initialized App is a no-op that
returns the App; on an initialized App, `smother({isSilent:true})`
invokes neither the end callback nor the `end` event, while `smother()`
with no options invokes the registered end callback with the config and
then emits the `end` event. -/
theorem smother_spec (i : Nat) (a : AppState) (tr : List Ev) (f : Callback) :
    (a.hasInitialized = false → ∀ sil, smother i sil a tr = (a, tr, none)) ∧
    (a.hasInitialized = true → smother i true a tr = (a, tr, none)) ∧
    (a.hasInitialized = true → a.unloadOnce = false → a.endCall = some f →
      (f a.config).2 = none →
      smother i false a tr =
        ({ a with unloadOnce := true, config := (f a.config).1 },
          tr ++ [Ev.unloadBody i, Ev.endCallEv i a.config, Ev.endTrig i], none)) := by
  refine ⟨?_, ?_, ?_⟩
  · intro h sil
    simp [smother, h]
  · intro h
    simp [smother, h]
  · intro h hu he hp
    rcases hfc : f a.config with ⟨c2, e2⟩
    rw [hfc] at hp
    simp only at hp
    subst hp
    simp [smother, h, _unload, hu, unloadBody, he, hfc]

theorem smother_spec_witness :
    smother 0 false defaultApp [] = (defaultApp, [], none) ∧
    smother 0 true wInitApp [] = (wInitApp, [], none) ∧
    smother 0 false wInitApp [] =
      ({ wInitApp with unloadOnce := true, config := (endFc wInitApp.config).1 },
        [Ev.unloadBody 0, Ev.endCallEv 0 wInitApp.config, Ev.endTrig 0], none) :=
  ⟨(smother_spec 0 defaultApp [] endFc).1 rfl false,
    (smother_spec 0 wInitApp [] endFc).2.1 rfl,
    (smother_spec 0 wInitApp [] endFc).2.2 rfl rfl rfl rfl⟩

/-- C7: If a setup callback or the start callback raises an error
during initialization, the error is not caught by the core and
propagates to the caller of the triggering event, and the remaining
steps of the transition do not run (later queued setup callbacks, the
start callback, and later lifecycle events are skipped) while
`hasInitialized` remains true — the App is left partially initialized
with no rollback. -/
theorem initialization_error_propagates (i : Nat) (a : AppState) (tr : List Ev)
    (ps rest : List Callback) (f g : Callback) (e : Err) :
    (a.initOnce = false → a.setupCalls = ps ++ f :: rest →
      (∀ x ∈ ps, PureCb x) → (f (applyAll ps a.config)).2 = some e →
      (initializeOnce i a tr).2.2 = some e ∧
      (initializeOnce i a tr).1.hasInitialized = true ∧
      (initializeOnce i a tr).2.1 =
        tr ++ [Ev.initBody i, Ev.trig i LName.setupBefore a.config] ++
          setupTrace i 0 ps a.config ++
          [Ev.setupCall i ps.length (applyAll ps a.config)]) ∧
    (a.initOnce = false → (∀ x ∈ a.setupCalls, PureCb x) → a.startCall = some g →
      (g (applyAll a.setupCalls a.config)).2 = some e →
      (initializeOnce i a tr).2.2 = some e ∧
      (initializeOnce i a tr).1.hasInitialized = true ∧
      (initializeOnce i a tr).2.1 =
        tr ++ [Ev.initBody i, Ev.trig i LName.setupBefore a.config] ++
          setupTrace i 0 a.setupCalls a.config ++
          [Ev.trig i LName.setupAfter (applyAll a.setupCalls a.config),
            Ev.trig i LName.startBefore (applyAll a.setupCalls a.config),
            Ev.startCallEv i (applyAll a.setupCalls a.config)]) := by
  constructor
  · intro h0 hsplit hps herr
    have heq : initializeOnce i a tr = initializeBody i { a with initOnce := true } tr := by
      simp [initializeOnce, h0]
    have hdrain := drainSetups_err i f e rest ps 0 a.config
      (tr ++ [Ev.initBody i, Ev.trig i LName.setupBefore a.config]) hps herr
    rw [heq]
    refine ⟨?_, ?_, ?_⟩ <;>
      simp [initializeBody, hsplit, hdrain, List.append_assoc]
  · intro h0 hps hstc herr
    have heq : initializeOnce i a tr = initializeBody i { a with initOnce := true } tr := by
      simp [initializeOnce, h0]
    have hdrain := drainSetups_pure i a.setupCalls 0 a.config
      (tr ++ [Ev.initBody i, Ev.trig i LName.setupBefore a.config]) hps
    rcases hscr : g (applyAll a.setupCalls a.config) with ⟨c2, e2⟩
    rw [hscr] at herr
    simp only at herr
    subst herr
    rw [heq]
    refine ⟨?_, ?_, ?_⟩ <;>
      simp [initializeBody, hdrain, hstc, hscr, List.append_assoc]

theorem initialization_error_propagates_witness :
    ((initializeOnce 0 wAppBadSetup []).2.2 = some 7 ∧
      (initializeOnce 0 wAppBadSetup []).1.hasInitialized = true ∧
      (initializeOnce 0 wAppBadSetup []).2.1 =
        [] ++ [Ev.initBody 0, Ev.trig 0 LName.setupBefore wAppBadSetup.config] ++
          setupTrace 0 0 [setupF1] wAppBadSetup.config ++
          [Ev.setupCall 0 (List.length [setupF1])
            (applyAll [setupF1] wAppBadSetup.config)]) ∧
    ((initializeOnce 0 wAppBadStart []).2.2 = some 9 ∧
      (initializeOnce 0 wAppBadStart []).1.hasInitialized = true ∧
      (initializeOnce 0 wAppBadStart []).2.1 =
        [] ++ [Ev.initBody 0, Ev.trig 0 LName.setupBefore wAppBadStart.config] ++
          setupTrace 0 0 wAppBadStart.setupCalls wAppBadStart.config ++
          [Ev.trig 0 LName.setupAfter
              (applyAll wAppBadStart.setupCalls wAppBadStart.config),
            Ev.trig 0 LName.startBefore
              (applyAll wAppBadStart.setupCalls wAppBadStart.config),
            Ev.startCallEv 0
              (applyAll wAppBadStart.setupCalls wAppBadStart.config)]) := by
  constructor
  · refine (initialization_error_propagates 0 wAppBadSetup [] [setupF1] [] badSetup
      startF 7).1 rfl rfl ?_ rfl
    intro x hx
    have hx2 : x = setupF1 := by simpa using hx
    subst hx2
    intro c
    rfl
  · refine (initialization_error_propagates 0 wAppBadStart [] [] [] setupF1
      badStart 9).2 rfl ?_ rfl rfl
    intro x hx
    have hx2 : x = setupF1 := by simpa [wAppBadStart, wApp] using hx
    subst hx2
    intro c
    rfl

/-- C8: Calling `unlock()` more times than `lock()` drives the lock
counter negative, and a negative counter behaves exactly as fully
unlocked: the gating check, which tests only whether the counter is
greater than zero, proceeds to initialize apps whose other conditions
hold; there is no floor check anywhere. -/
theorem lock_no_floor (s : SysState) (lb : Int) (rdy : Bool) (i : Nat)
    (a : AppState) (tr : List Ev) :
    (applyOp s Op.unlock).1.lockBarrier = s.lockBarrier - 1 ∧
    (lb ≤ 0 → (a.isIgnited || rdy) = true → a.initOnce = false →
      (_check lb rdy i a tr).1.hasInitialized = true) ∧
    ((run initSys [Op.lock, Op.unlock, Op.unlock, Op.newApp true true,
        Op.docReady]).lockBarrier = -1 ∧
      (appAt (run initSys [Op.lock, Op.unlock, Op.unlock, Op.newApp true true,
        Op.docReady]) 0).hasInitialized = true) := by
  refine ⟨?_, ?_, by decide, by decide⟩
  · rcases hr : foldApps (_check (s.lockBarrier - 1) s.isDocReady) s.apps 0 s.trace
      with ⟨l2, tr2, e⟩
    simp [applyOp, _runChecks, hr]
  · intro h1 h2 h3
    have hl : ¬lb > 0 := by omega
    exact (check_inits lb rdy i a tr hl h2 h3).1

theorem lock_no_floor_witness :
    ((-2 : Int) ≤ 0 ∧
      (_check (-2) true 0 defaultApp []).1.hasInitialized = true) ∧
    (applyOp initSys Op.unlock).1.lockBarrier = initSys.lockBarrier - 1 :=
  ⟨⟨by norm_num, (lock_no_floor initSys (-2) true 0 defaultApp []).2.1
      (by norm_num) (by decide) (by decide)⟩,
    (lock_no_floor initSys (-2) true 0 defaultApp []).1⟩

/-- C9: A silent smother does not consume the one-shot unload: for an
initialized App, `smother({isSilent:true})` changes nothing, and a
subsequent `smother()` without `isSilent` (or the window-unload path,
which calls the same once-wrapped `_unload`) still invokes the end
callback and emits the `end` event exactly once. -/
theorem silent_smother_not_consuming (i : Nat) (a : AppState) (tr : List Ev)
    (f : Callback) (h1 : a.hasInitialized = true) (h2 : a.unloadOnce = false)
    (h3 : a.endCall = some f) (h4 : (f a.config).2 = none) :
    smother i true a tr = (a, tr, none) ∧
    (smother i false (smother i true a tr).1 (smother i true a tr).2.1).2.1 =
      tr ++ [Ev.unloadBody i, Ev.endCallEv i a.config, Ev.endTrig i] ∧
    (_unload i (smother i true a tr).1 (smother i true a tr).2.1).2.1 =
      tr ++ [Ev.unloadBody i, Ev.endCallEv i a.config, Ev.endTrig i] := by
  have hsil : smother i true a tr = (a, tr, none) := by simp [smother, h1]
  rcases hfc : f a.config with ⟨c2, e2⟩
  rw [hfc] at h4
  simp only at h4
  subst h4
  refine ⟨hsil, ?_, ?_⟩ <;>
    rw [hsil] <;>
    simp [smother, h1, _unload, h2, unloadBody, h3, hfc]

theorem silent_smother_not_consuming_witness :
    smother 0 true wInitApp [] = (wInitApp, [], none) ∧
    (smother 0 false (smother 0 true wInitApp []).1
      (smother 0 true wInitApp []).2.1).2.1 =
      [] ++ [Ev.unloadBody 0, Ev.endCallEv 0 wInitApp.config, Ev.endTrig 0] ∧
    (_unload 0 (smother 0 true wInitApp []).1
      (smother 0 true wInitApp []).2.1).2.1 =
      [] ++ [Ev.unloadBody 0, Ev.endCallEv 0 wInitApp.config, Ev.endTrig 0] :=
  silent_smother_not_consuming 0 wInitApp [] endFc rfl rfl rfl rfl

/-- C10: A start callback registered via `start(fn)` after the App has
already initialized is stored but never invoked: the registration
overwrites the stored reference without any trace effect, and once the
initialize once-flag is consumed, no further stimuli can add a
start-callback invocation for that App. -/
theorem late_start_lost (s : SysState) (ops : List Op) (i : Nat) (f : Callback) :
    (i < s.apps.length →
      (appAt (applyOp s (Op.start i f)).1 i).startCall = some f ∧
      (applyOp s (Op.start i f)).1.trace = s.trace) ∧
    ((appAt s i).initOnce = true →
      cnt (pStart i) (run s ops).trace = cnt (pStart i) s.trace) := by
  constructor
  · intro hi
    have hres : applyOp s (Op.start i f) =
        ({ s with
            apps := setAt s.apps i ({ appAtL s.apps i with startCall := some f }),
            trace := s.trace }, none) := by
      simp [applyOp, appOp, hi]
    rw [hres]
    constructor
    · simp only [appAt]
      rw [appAtL_setAt_self _ s.apps i hi]
    · rfl
  · exact run_start_freeze ops s i

theorem late_start_lost_witness :
    0 < s10.apps.length ∧
    (appAt (applyOp s10 (Op.start 0 startF)).1 0).startCall = some startF ∧
    (appAt s10 0).initOnce = true ∧
    cnt (pStart 0) (run s10 [Op.unlock, Op.ignite 0, Op.windowUnload]).trace =
      cnt (pStart 0) s10.trace :=
  ⟨by decide,
    ((late_start_lost s10 [Op.unlock, Op.ignite 0, Op.windowUnload] 0 startF).1
      (by decide)).1,
    by decide,
    (late_start_lost s10 [Op.unlock, Op.ignite 0, Op.windowUnload] 0 startF).2
      (by decide)⟩

end StormApp
